import Mathlib

/-! Form validation and fragment synchronisation (`src/js/form-util.js`).

A shallow embedding of the form logic of the certificate generator:
the rule table `conditions`, `validateAriaFields`, `toAscii`, `getProfile`,
`getReasons`, the click handler of the generate button, `followParams`
and `listenToInputChanges`.

Modelling conventions.
* A JavaScript string is the list of its UTF-16 code units.
* A DOM element is addressed by its `id`; `$('#' + id)` and
  `document.getElementById(id)` both resolve to the element carrying that id
  (ids are plain identifiers, as everywhere in the source).
* A function that can throw returns an `Except JSError _`, next to the page
  it leaves behind when it has effects: an exception undoes none of them.
-/

namespace FormUtil

/-! ## JavaScript values and strings -/

/-- A JavaScript string: its sequence of UTF-16 code units. -/
abbrev JSString := List Nat

/-- UTF-16 encoding of one Unicode scalar value. -/
def utf16 (c : Char) : List Nat :=
  if c.toNat < 0x10000 then [c.toNat]
  else [0xD800 + (c.toNat - 0x10000) / 0x400, 0xDC00 + (c.toNat - 0x10000) % 0x400]

/-- The JavaScript string written by a source literal. -/
def str (s : String) : JSString := s.toList.flatMap utf16

/-- The JavaScript values the form code distinguishes with `typeof`. -/
inductive JSValue where
  | undefined
  | null
  | boolean (b : Bool)
  | number (n : Int)
  | string (s : JSString)
  deriving DecidableEq, Repr

/-- Exceptions raised by the modelled code. -/
inductive JSError where
  | typeError
  | error (message : String)
  deriving DecidableEq, Repr

deriving instance DecidableEq for Except

/-- Template-literal interpolation of an array slot: a missing slot is
`undefined` and prints as such. -/
def interpolate : Option JSString → JSString
  | some s => s
  | none => str "undefined"

/-- Source: `String.prototype.split` with a one-unit separator. -/
def split (sep : Nat) : JSString → List JSString
  | [] => [[]]
  | c :: cs =>
    if c = sep then [] :: split sep cs
    else
      match split sep cs with
      | [] => [[c]]
      | h :: t => (c :: h) :: t

/-- Source: `Array.prototype.join`: walk the array, writing the separator
before every element but the first. -/
def joinFrom (sep : JSString) (acc : JSString) : Bool → List JSString → JSString
  | _, [] => acc
  | true, x :: xs => joinFrom sep (acc ++ x) false xs
  | false, x :: xs => joinFrom sep (acc ++ sep ++ x) false xs

/-- Source: `array.join(sep)`. -/
def join (sep : JSString) (xs : List JSString) : JSString := joinFrom sep [] true xs

/-- Source: `s.replace(/[...]/g, repl)` for a pattern that is one character
class: every code unit in the class is replaced. -/
def replaceClass (cls : Nat → Bool) (repl : JSString) (s : JSString) : JSString :=
  s.flatMap (fun u => if cls u then repl else [u])

/-! ## `toAscii` -/

/-- The class `[^\x00-\x7F]`. -/
def nonAscii (u : Nat) : Bool := !(decide (0x00 ≤ u) && decide (u ≤ 0x7F))

/-- Source: `toAscii` (form-util.js 66-73). `removeAccents` is the imported
`remove-accents` package, taken as a parameter. -/
def toAscii (removeAccents : JSString → JSString) (string : JSValue) : Except JSError JSString :=
  match string with
  | .string s =>
    let accentsRemoved := removeAccents s
    let asciiString := replaceClass nonAscii [] accentsRemoved
    .ok asciiString
  | _ => .error (.error "Need string")

/-- Combining diacritical marks, U+0300 to U+036F. -/
def isCombiningMark (u : Nat) : Prop := 0x0300 ≤ u ∧ u ≤ 0x036F

/-! ## `getReasons` -/

/-- A reason control as `getReasons` reads it. -/
structure ReasonInput where
  checked : Bool
  value : JSString
  deriving DecidableEq, Repr

/-- Source: `getReasons` (form-util.js 95-100). -/
def getReasons (reasonInputs : List ReasonInput) : JSString :=
  let reasons := join (str ", ") ((reasonInputs.filter (fun input => input.checked)).map
    (fun input => input.value))
  reasons

/-! ## Regular expressions of the rule table -/

/-- The regular-expression constructs the rule table uses. -/
inductive Regex where
  | bol
  | unit (c : Nat)
  | range (lo hi : Nat)
  | digit
  | seq (a b : Regex)
  | alt (a b : Regex)
  | times (n : Nat) (a : Regex)
  deriving DecidableEq, Repr

/-- A matcher state: the index reached and the input still to read. -/
abbrev MState := Nat × JSString

/-- Run a matcher `n` times in sequence. -/
def iter (f : MState → List MState) : Nat → MState → List MState
  | 0, st => [st]
  | n + 1, st => (f st).flatMap (iter f n)

/-- Backtracking matcher: every state in which a match of the pattern that
starts in the given state can end, in the order the alternatives are tried. -/
def ends : Regex → MState → List MState
  | .bol => fun st => if st.1 = 0 then [st] else []
  | .unit c => fun st =>
    match st.2 with
    | x :: t => if x = c then [(st.1 + 1, t)] else []
    | [] => []
  | .range lo hi => fun st =>
    match st.2 with
    | x :: t => if lo ≤ x ∧ x ≤ hi then [(st.1 + 1, t)] else []
    | [] => []
  | .digit => fun st =>
    match st.2 with
    | x :: t => if 48 ≤ x ∧ x ≤ 57 then [(st.1 + 1, t)] else []
    | [] => []
  | .seq a b => fun st => (ends a st).flatMap (ends b)
  | .alt a b => fun st => ends a st ++ ends b st
  | .times n a => fun st => iter (ends a) n st

/-- Whether a match of the pattern starts at index `k` of `s`. -/
def matchesAt (r : Regex) (s : JSString) (k : Nat) : Bool :=
  !(ends r (k, s.drop k)).isEmpty

/-- Source: truthiness of `s.match(r)` for a global pattern: the result is
`null` exactly when no index of `s` starts a match. -/
def hasMatch (r : Regex) (s : JSString) : Bool :=
  (List.range (s.length + 1)).any (matchesAt r s)

/-- Sequence of one pattern and the patterns that follow it. -/
def Regex.cat (r : Regex) : List Regex → Regex
  | [] => r
  | r2 :: rs => .seq r (Regex.cat r2 rs)

/-- Alternation of one pattern and the patterns that follow it. -/
def Regex.alts (r : Regex) : List Regex → Regex
  | [] => r
  | r2 :: rs => .alt r (Regex.alts r2 rs)

/-- A literal character. -/
def Regex.chr (c : Char) : Regex := .unit c.toNat

/-- A character class `[lo-hi]`. -/
def Regex.cls (lo hi : Char) : Regex := .range lo.toNat hi.toNat

/-! ## The rule table -/

/-- An entry of the rule table: an optional `pattern`, an optional `length`. -/
structure Condition where
  pattern : Option Regex
  length : Option Nat
  deriving DecidableEq, Repr

/-- Source: the first group of the birthday pattern,
`([0][1-9]|[1-2][0-9]|30|31)`. -/
def dayPattern : Regex :=
  .alts (.cat (.cls '0' '0') [.cls '1' '9'])
    [.cat (.cls '1' '2') [.cls '0' '9'], .cat (.chr '3') [.chr '0'], .cat (.chr '3') [.chr '1']]

/-- Source: the second group of the birthday pattern, `([0][1-9]|10|11|12)`. -/
def monthPattern : Regex :=
  .alts (.cat (.cls '0' '0') [.cls '1' '9'])
    [.cat (.chr '1') [.chr '0'], .cat (.chr '1') [.chr '1'], .cat (.chr '1') [.chr '2']]

/-- Source: the third group of the birthday pattern,
`(19[0-9][0-9]|20[0-1][0-9]|2020)`. -/
def yearPattern : Regex :=
  .alts (.cat (.chr '1') [.chr '9', .cls '0' '9', .cls '0' '9'])
    [.cat (.chr '2') [.chr '0', .cls '0' '1', .cls '0' '9'],
     .cat (.chr '2') [.chr '0', .chr '2', .chr '0']]

/-- Source: the pattern of `#field-birthday` (form-util.js 20):
`^` group `\/` group `\/` group. -/
def birthdayPattern : Regex :=
  .cat .bol [dayPattern, .chr '/', monthPattern, .chr '/', yearPattern]

/-- Source: the pattern of `#field-zipcode` (form-util.js 32). -/
def zipcodePattern : Regex := .times 5 .digit

/-- Source: the pattern of `#field-datesortie` (form-util.js 35). -/
def datesortiePattern : Regex :=
  .cat (.times 4 .digit) [.chr '-', .times 2 .digit, .chr '-', .times 2 .digit]

/-- Source: the pattern of `#field-heuresortie` (form-util.js 38). -/
def heuresortiePattern : Regex :=
  .cat (.times 2 .digit) [.chr ':', .times 2 .digit]

/-- Source: `conditions` (form-util.js 12-40), in key order. -/
def conditions : List (JSString × Condition) := [
  (str "#field-firstname", ⟨none, some 1⟩),
  (str "#field-lastname", ⟨none, some 1⟩),
  (str "#field-birthday", ⟨some birthdayPattern, none⟩),
  (str "#field-placeofbirth", ⟨none, some 1⟩),
  (str "#field-address", ⟨none, some 1⟩),
  (str "#field-city", ⟨none, some 1⟩),
  (str "#field-zipcode", ⟨some zipcodePattern, none⟩),
  (str "#field-datesortie", ⟨some datesortiePattern, none⟩),
  (str "#field-heuresortie", ⟨some heuresortiePattern, none⟩)]

/-! ## The page -/

/-- A form control: its live value, its checked state and its
`aria-invalid` attribute (absent, or the printed boolean last set). -/
structure Element where
  value : JSString
  checked : Bool
  ariaInvalid : Option Bool
  deriving DecidableEq, Repr

/-- A JavaScript object with string keys, in insertion order. -/
abbrev JSObject := List (JSString × JSValue)

/-- Source: `obj[key] = value`. -/
def JSObject.set : JSObject → JSString → JSValue → JSObject
  | [], key, value => [(key, value)]
  | (k, v) :: rest, key, value =>
    if k = key then (k, value) :: rest else (k, v) :: JSObject.set rest key value

/-- Source: `obj[key]`. -/
def JSObject.get : JSObject → JSString → JSValue
  | [], _ => .undefined
  | (k, v) :: rest, key => if k = key then v else JSObject.get rest key

/-- A `URLSearchParams` object: its name/value pairs in order. -/
abbrev Params := List (JSString × JSString)

/-- Source: `params.has(name)`. -/
def Params.has (params : Params) (name : JSString) : Bool :=
  params.any (fun kv => decide (kv.1 = name))

/-- Source: `params.get(name)`: the first value, or `null`. -/
def Params.get (params : Params) (name : JSString) : Option JSString :=
  (params.find? (fun kv => decide (kv.1 = name))).map (fun kv => kv.2)

/-- Source: `params.set(name, value)`: the first pair of that name takes the
value and the other pairs of that name go; a new name is appended. -/
def Params.set (params : Params) (name value : JSString) : Params :=
  match params with
  | [] => [(name, value)]
  | (k, v) :: rest =>
    if k = name then (k, value) :: rest.filter (fun kv => !decide (kv.1 = name))
    else (k, v) :: Params.set rest name value

/-- The element lists `prepareInputs` received and its listeners close over. -/
structure Wiring where
  formInputs : List JSString
  reasonInputs : List JSString
  deriving DecidableEq, Repr

/-- What the snackbar timers do when they fire. -/
inductive TimerAction where
  | addShow
  | removeShowThenHideAfter (delay : Nat)
  deriving DecidableEq, Repr

/-- The state of the page the form code reads and writes. -/
structure Page where
  /-- The elements, by id. -/
  elems : JSString → Option Element
  /-- The id of `document.activeElement`, when a field has focus. -/
  activeElement : Option JSString
  /-- Every `focus()` call so far, oldest first. -/
  focusCalls : List JSString
  /-- Whether the reason fieldset carries the class `fieldset-error`. -/
  fieldsetError : Bool
  /-- Whether the reason alert carries the class `hidden`. -/
  alertHidden : Bool
  /-- Whether the reason fieldset has a `scrollIntoView` method. -/
  canScroll : Bool
  /-- The number of `scrollIntoView()` calls so far. -/
  scrollCalls : Nat
  /-- Every `generatePdf` call so far: the profile and the reasons. -/
  generatorCalls : List (JSObject × JSString)
  /-- Every `downloadBlob` call so far: the blob and the file name. -/
  downloads : List (JSString × JSString)
  /-- Whether the snackbar carries the class `d-none`. -/
  snackbarHidden : Bool
  /-- The timers set so far: delay in milliseconds and action. -/
  timers : List (Nat × TimerAction)
  /-- The module constant `params`, read from the fragment at load. -/
  params : Params
  /-- The parameters of the current URL fragment. -/
  fragment : Params
  /-- The listeners of `prepareInputs`, once it has run. -/
  wiring : Option Wiring
  /-- The listeners of `listenToInputChanges`: input id and parameter name. -/
  inputListeners : List (JSString × JSString)

/-- Source: `$(selector)` for an id selector: the id of the element found. -/
def querySelector (p : Page) (selector : JSString) : Option JSString :=
  match selector with
  | 35 :: id => if (p.elems id).isSome then some id else none
  | _ => none

/-- Replace the element stored under an id. -/
def Page.setElem (p : Page) (id : JSString) (el : Element) : Page :=
  { p with elems := fun k => if k = id then some el else p.elems k }

/-- Source: `element.focus()`. -/
def Page.focus (p : Page) (id : JSString) : Page :=
  { p with activeElement := some id, focusCalls := p.focusCalls ++ [id] }

/-! ## `validateAriaFields` -/

/-- Source: `isInvalid` in the callback of `validateAriaFields`
(form-util.js 46-51), from the entry and the live value of the field. A
missing `pattern` or `length`, and a `length` of 0, are falsy. -/
def isInvalid (fieldData : Condition) (value : JSString) : Bool :=
  let isInvalidPattern :=
    match fieldData.pattern with
    | some pattern => !hasMatch pattern value
    | none => false
  let isInvalidLength :=
    match fieldData.length with
    | some length => decide (length ≠ 0) && decide (value.length = 0)
    | none => false
  isInvalidPattern || isInvalidLength

/-- Source: the callback of `validateAriaFields` (form-util.js 44-58) for one
key of the rule table. `$(field)` is `null` for a missing element, and the
first property access on it throws. -/
def validateField (field : JSString) (fieldData : Condition) (p : Page) :
    Page × Except JSError Bool :=
  match querySelector p field with
  | none => (p, .error .typeError)
  | some id =>
    match p.elems id with
    | none => (p, .error .typeError)
    | some el =>
      let isInvalid := isInvalid fieldData el.value
      let p1 := p.setElem id { el with ariaInvalid := some isInvalid }
      let p2 := if isInvalid then p1.focus id else p1
      (p2, .ok isInvalid)

/-- Source: `Object.keys(conditions).map(...)`, the callback run on each key
in order; an exception stops the walk and keeps the effects made so far. -/
def mapFields : List (JSString × Condition) → Page → Page × Except JSError (List Bool)
  | [], p => (p, .ok [])
  | (field, fieldData) :: rest, p =>
    match validateField field fieldData p with
    | (p1, .error e) => (p1, .error e)
    | (p1, .ok isInvalid) =>
      match mapFields rest p1 with
      | (p2, .error e) => (p2, .error e)
      | (p2, .ok results) => (p2, .ok (isInvalid :: results))

/-- Source: `validateAriaFields` (form-util.js 42-60). -/
def validateAriaFields (p : Page) : Page × Except JSError Bool :=
  match mapFields conditions p with
  | (p1, .error e) => (p1, .error e)
  | (p1, .ok results) => (p1, .ok (results.contains true))

/-! ## `getProfile` -/

/-- A form input as `getProfile` reads it. -/
structure FormInput where
  id : JSString
  value : JSValue
  deriving DecidableEq, Repr

/-- Source: the body of the loop of `getProfile` (form-util.js 82-90).
`field.value.split` throws when the value is not a string. -/
def profileStep (removeAccents : JSString → JSString) (fields : JSObject) (field : FormInput) :
    Except JSError JSObject :=
  let value : Except JSError JSValue :=
    if field.id = str "field-datesortie" then
      match field.value with
      | .string s =>
        let dateSortie := split 45 s
        .ok (.string (interpolate (dateSortie.get? 2) ++ str "/" ++
          interpolate (dateSortie.get? 1) ++ str "/" ++ interpolate (dateSortie.get? 0)))
      | _ => .error .typeError
    else .ok field.value
  match value with
  | .error e => .error e
  | .ok (.string s) =>
    match toAscii removeAccents (.string s) with
    | .error e => .error e
    | .ok ascii => .ok (fields.set (field.id.drop (str "field-").length) (.string ascii))
  | .ok value => .ok (fields.set (field.id.drop (str "field-").length) value)

/-- The loop of `getProfile` from a given accumulator. -/
def profileLoop (removeAccents : JSString → JSString) :
    JSObject → List FormInput → Except JSError JSObject
  | fields, [] => .ok fields
  | fields, field :: rest =>
    match profileStep removeAccents fields field with
    | .error e => .error e
    | .ok fields1 => profileLoop removeAccents fields1 rest

/-- Source: `getProfile` (form-util.js 79-93). -/
def getProfile (removeAccents : JSString → JSString) (formInputs : List FormInput) :
    Except JSError JSObject :=
  profileLoop removeAccents [] formInputs

/-! ## `prepareInputs`: the listeners -/

/-- The external collaborators of the click handler. -/
structure Env where
  /-- The `remove-accents` package. -/
  removeAccents : JSString → JSString
  /-- The document generator `generatePdf` applied to the template; `none`
  when its promise is rejected. -/
  generatePdf : JSObject → JSString → Option JSString
  /-- The clock: `toLocaleDateString('fr-CA')` of the creation instant. -/
  creationDate : JSString
  /-- The clock: `toLocaleTimeString('fr-FR', ...)` of the creation instant. -/
  creationTime : JSString

/-- Source: `s.replace(':', '-')`: the first occurrence only. -/
def replaceFirst (a b : Nat) : JSString → JSString
  | [] => []
  | c :: cs => if c = a then b :: cs else c :: replaceFirst a b cs

/-- The reason controls behind the captured references, as `getReasons`
reads them. -/
def Page.reasonControls (p : Page) (ids : List JSString) : List ReasonInput :=
  ids.filterMap (fun id => (p.elems id).map (fun el => ⟨el.checked, el.value⟩))

/-- The form inputs behind the captured references, as `getProfile` reads
them. -/
def Page.formFields (p : Page) (ids : List JSString) : List FormInput :=
  ids.filterMap (fun id => (p.elems id).map (fun el => ⟨id, .string el.value⟩))

/-- Source: the `change` listener of every reason control
(form-util.js 128-132). -/
def reasonChange (w : Wiring) (p : Page) : Page :=
  let isInError := (p.reasonControls w.reasonInputs).all (fun input => !input.checked)
  { p with fieldsetError := isInError, alertHidden := !isInError }

/-- Source: the `click` listener of `#generate-btn` (form-util.js 135-168).
The handler is asynchronous: an exception inside it rejects its promise and
goes no further, and the effects made before it stay. Its one `await`, on
the document generator, is followed here by its continuation at once: no
other handler is interleaved. -/
def generateClick (env : Env) (w : Wiring) (p : Page) : Page :=
  let reasons := getReasons (p.reasonControls w.reasonInputs)
  if reasons = [] then
    let p1 := { p with fieldsetError := true }
    let p2 := { p1 with alertHidden := false }
    let p3 := if p2.canScroll then { p2 with scrollCalls := p2.scrollCalls + 1 } else p2
    p3
  else
    match validateAriaFields p with
    | (p1, .error _) => p1
    | (p1, .ok true) => p1
    | (p1, .ok false) =>
      match getProfile env.removeAccents (p1.formFields w.formInputs) with
      | .error _ => p1
      | .ok profile =>
        let p2 := { p1 with generatorCalls := p1.generatorCalls ++ [(profile, reasons)] }
        match env.generatePdf profile reasons with
        | none => p2
        | some pdfBlob =>
          let creationDate := env.creationDate
          let creationHour := replaceFirst 58 45 env.creationTime
          let p3 := { p2 with downloads := p2.downloads ++
            [(pdfBlob, str "attestation-" ++ creationDate ++ str "_" ++ creationHour ++ str ".pdf")] }
          let p4 := { p3 with snackbarHidden := false }
          let p5 := { p4 with timers := p4.timers ++ [(100, TimerAction.addShow)] }
          let p6 := { p5 with timers := p5.timers ++ [(6000, TimerAction.removeShowThenHideAfter 500)] }
          p6

/-- Source: `element.click()` on a reason checkbox: the checked state flips
and the `change` listener of `prepareInputs`, when installed on it, runs. -/
def Page.clickCheckbox (p : Page) (id : JSString) : Page :=
  match p.elems id with
  | none => p
  | some el =>
    let p1 := p.setElem id { el with checked := !el.checked }
    match p1.wiring with
    | some w => if id ∈ w.reasonInputs then reasonChange w p1 else p1
    | none => p1

/-- Source: `$('#generate-btn').click()`: the `click` listener of
`prepareInputs`, when installed, runs. -/
def Page.clickGenerate (env : Env) (p : Page) : Page :=
  match p.wiring with
  | some w => generateClick env w p
  | none => p

/-! ## `followParams` and `listenToInputChanges` -/

/-- An item of the reason group of the field-definition table (`alias_` is
the source's `alias`). -/
structure ReasonItem where
  code : JSString
  alias_ : Option JSString
  deriving DecidableEq, Repr

/-- A definition of the field-definition table `form-data`. -/
structure FieldDef where
  key : JSString
  alias_ : Option JSString
  isHidden : Bool
  items : Option (List ReasonItem)
  deriving DecidableEq, Repr

/-- Source: `a || b` on an optional string: the empty string is falsy. -/
def orElse (a : Option JSString) (b : JSString) : JSString :=
  match a with
  | some s => if s = [] then b else s
  | none => b

/-- The nullish coalescing `a ?? b` on an optional string. -/
def nullish (a : Option JSString) (b : JSString) : JSString :=
  match a with
  | some s => s
  | none => b

/-- Source: the chain `formData.flat(1).filter(...).filter(...)` of
`followParams` and `listenToInputChanges`. -/
def visibleFields (formData : List (List FieldDef)) : List FieldDef :=
  (formData.flatten.filter (fun field => decide (field.key ≠ str "reason"))).filter
    (fun field => !field.isHidden)

/-- Source: the first `forEach` of `followParams` (form-util.js 192-196).
Assigning `null` to the value of an input stores the empty string. -/
def fillFields : List FieldDef → Page → Page × Except JSError Unit
  | [], p => (p, .ok ())
  | data :: rest, p =>
    let name := orElse data.alias_ data.key
    let field := querySelector p (str "#field-" ++ data.key)
    if p.params.has name then
      match field with
      | none => (p, .error .typeError)
      | some id =>
        match p.elems id with
        | none => (p, .error .typeError)
        | some el => fillFields rest (p.setElem id { el with value := (p.params.get name).getD [] })
    else fillFields rest p

/-- Source: the second `forEach` of `followParams` (form-util.js 200-204).
The parameter name is `reasonsObj.alias_ || 'raisons' || reasonsObj.key`. -/
def tickReasons (reasonsObj : FieldDef) : List ReasonItem → Page → Page × Except JSError Unit
  | [], p => (p, .ok ())
  | data :: rest, p =>
    let name := orElse data.alias_ data.code
    let field := querySelector p (str "#checkbox-" ++ data.code)
    let listed :=
      match p.params.get (orElse (some (orElse reasonsObj.alias_ (str "raisons"))) reasonsObj.key) with
      | some v => (split 44 v).contains name
      | none => false
    if listed then
      match field with
      | none => (p, .error .typeError)
      | some id =>
        match p.elems id with
        | none => (p, .error .typeError)
        | some el =>
          if !el.checked then tickReasons reasonsObj rest (p.clickCheckbox id)
          else tickReasons reasonsObj rest p
    else tickReasons reasonsObj rest p

/-- Source: `followParams` (form-util.js 187-208). -/
def followParams (env : Env) (formData : List (List FieldDef)) (p : Page) :
    Page × Except JSError Unit :=
  match fillFields (visibleFields formData) p with
  | (p1, .error e) => (p1, .error e)
  | (p1, .ok ()) =>
    match formData.flatten.find? (fun field => decide (field.key = str "reason")) with
    | none => (p1, .error .typeError)
    | some reasonsObj =>
      match reasonsObj.items with
      | none => (p1, .error .typeError)
      | some items =>
        match tickReasons reasonsObj items p1 with
        | (p2, .error e) => (p2, .error e)
        | (p2, .ok ()) =>
          if p2.params.has (str "auto") then
            match querySelector p2 (str "#generate-btn") with
            | none => (p2, .error .typeError)
            | some _ => (p2.clickGenerate env, .ok ())
          else (p2, .ok ())

/-- Modelled from the spec: `setParam` of `./util`, which is not among the
source files. Given a parameter name and a value it stores the value in the
fragment parameter of that name, without reloading the page. -/
def setParam (name value : JSString) (p : Page) : Page :=
  { p with fragment := Params.set p.fragment name value }

/-- The user gives the input `id` the value `v`: the value changes and the
`input` listeners of `listenToInputChanges` on that element run with
`e.target.value = v`. -/
def Page.input (p : Page) (id v : JSString) : Page :=
  match p.elems id with
  | none => p
  | some el =>
    let p1 := p.setElem id { el with value := v }
    (p1.inputListeners.filter (fun l => decide (l.1 = id))).foldl
      (fun q l => setParam l.2 v q) p1

/-! ## Specification vocabulary -/

/-- Words matched by `n` successive matches of a language, from index `i`. -/
def MatchesPow (L : Nat → JSString → Prop) : Nat → Nat → JSString → Prop
  | 0, _, w => w = []
  | n + 1, i, w => ∃ u v, w = u ++ v ∧ L i u ∧ MatchesPow L n (i + u.length) v

/-- Declarative semantics of a pattern: the words it matches when they start
at index `i` of the input. -/
def Matches : Regex → Nat → JSString → Prop
  | .bol => fun i w => i = 0 ∧ w = []
  | .unit c => fun _ w => w = [c]
  | .range lo hi => fun _ w => ∃ c, lo ≤ c ∧ c ≤ hi ∧ w = [c]
  | .digit => fun _ w => ∃ c, 48 ≤ c ∧ c ≤ 57 ∧ w = [c]
  | .seq a b => fun i w => ∃ u v, w = u ++ v ∧ Matches a i u ∧ Matches b (i + u.length) v
  | .alt a b => fun i w => Matches a i w ∨ Matches b i w
  | .times n a => fun i w => MatchesPow (Matches a) n i w

/-- The value contains a match of the pattern. -/
def ContainsMatch (r : Regex) (v : JSString) : Prop :=
  ∃ pre w post, v = pre ++ w ++ post ∧ Matches r pre.length w

/-- An ASCII decimal digit. -/
def isDigit (u : Nat) : Prop := 48 ≤ u ∧ u ≤ 57

/-- The number a string of two ASCII digits writes. -/
def number2 (a b : Nat) : Nat := 10 * (a - 48) + (b - 48)

/-- The number a string of four ASCII digits writes. -/
def number4 (a b c d : Nat) : Nat := 1000 * (a - 48) + 100 * (b - 48) + 10 * (c - 48) + (d - 48)

/-- The value begins with `DD/MM/YYYY`: a two-digit day 01-31, a two-digit
month 01-12 and a four-digit year 1900-2020. -/
def BeginsWithDate (v : JSString) : Prop :=
  ∃ d1 d2 m1 m2 y1 y2 y3 y4 rest,
    v = [d1, d2, 47, m1, m2, 47, y1, y2, y3, y4] ++ rest ∧
    (isDigit d1 ∧ isDigit d2 ∧ 1 ≤ number2 d1 d2 ∧ number2 d1 d2 ≤ 31) ∧
    (isDigit m1 ∧ isDigit m2 ∧ 1 ≤ number2 m1 m2 ∧ number2 m1 m2 ≤ 12) ∧
    (isDigit y1 ∧ isDigit y2 ∧ isDigit y3 ∧ isDigit y4 ∧
      1900 ≤ number4 y1 y2 y3 y4 ∧ number4 y1 y2 y3 y4 ≤ 2020)

/-- A value violates a rule: a pattern rule when the value contains no match
of the pattern, a length rule when the value is empty. -/
def Violates (c : Condition) (v : JSString) : Prop :=
  (∃ r, c.pattern = some r ∧ ¬ ContainsMatch r v) ∨ (∃ n, c.length = some n ∧ n ≠ 0 ∧ v = [])

/-- The live value of the field a selector `#id` of the rule table names. -/
def Page.fieldValue (p : Page) (selector : JSString) : JSString :=
  match p.elems (selector.drop 1) with
  | some el => el.value
  | none => []

/-- The ids of the fields of the given entries whose live value is invalid,
in the order of the entries. -/
def invalidFields (p : Page) (l : List (JSString × Condition)) : List JSString :=
  (l.filter (fun kv => isInvalid kv.2 (p.fieldValue kv.1))).map (fun kv => kv.1.drop 1)

/-- What a walk over entries of the rule table leaves behind. -/
structure AriaPost (l : List (JSString × Condition)) (p q : Page) (bs : List Bool) : Prop where
  results : bs = l.map (fun kv => isInvalid kv.2 (p.fieldValue kv.1))
  value : ∀ k, (q.elems k).map (fun el => el.value) = (p.elems k).map (fun el => el.value)
  checked : ∀ k, (q.elems k).map (fun el => el.checked) = (p.elems k).map (fun el => el.checked)
  other : ∀ k, (∀ kv ∈ l, kv.1 ≠ 35 :: k) → q.elems k = p.elems k
  aria : ∀ kv ∈ l, ∀ k el, kv.1 = 35 :: k → p.elems k = some el →
    q.elems k = some { el with ariaInvalid := some (isInvalid kv.2 el.value) }
  focusCalls : q.focusCalls = p.focusCalls ++ invalidFields p l
  active : q.activeElement =
    match (invalidFields p l).getLast? with
    | some id => some id
    | none => p.activeElement
  params : q.params = p.params
  wiring : q.wiring = p.wiring

/-- A page with the given elements and fragment parameters, nothing focused
and no listener installed. -/
def Page.ofElems (elems : List (JSString × Element)) (params : Params) : Page where
  elems := fun k => elems.lookup k
  activeElement := none
  focusCalls := []
  fieldsetError := false
  alertHidden := true
  canScroll := true
  scrollCalls := 0
  generatorCalls := []
  downloads := []
  snackbarHidden := true
  timers := []
  params := params
  fragment := params
  wiring := none
  inputListeners := []

/-- A filled form: the nine fields of the rule table, a hidden field, two
reason checkboxes and the generate button. The zip code is invalid. -/
def sampleElems : List (JSString × Element) := [
  (str "field-firstname", ⟨str "Camille", false, none⟩),
  (str "field-lastname", ⟨str "Dupont", false, none⟩),
  (str "field-birthday", ⟨str "01/01/1970", false, none⟩),
  (str "field-placeofbirth", ⟨str "Paris", false, none⟩),
  (str "field-address", ⟨str "999 avenue de France", false, none⟩),
  (str "field-city", ⟨str "Paris", false, none⟩),
  (str "field-zipcode", ⟨str "7500", false, none⟩),
  (str "field-datesortie", ⟨str "2021-05-03", false, none⟩),
  (str "field-heuresortie", ⟨str "10:30", false, none⟩),
  (str "field-honeypot", ⟨[], false, none⟩),
  (str "checkbox-travail", ⟨str "travail", false, none⟩),
  (str "checkbox-achats", ⟨str "achats", false, none⟩),
  (str "generate-btn", ⟨[], false, none⟩)]

/-- The sample form on a page loaded without fragment parameters. -/
def samplePage : Page := Page.ofElems sampleElems []

/-- Two pages agree on the value and the checked state of every element, on
the module constant `params` and on the listeners of `prepareInputs`. -/
structure SameInputs (p q : Page) : Prop where
  value : ∀ k, (q.elems k).map (fun el => el.value) = (p.elems k).map (fun el => el.value)
  checked : ∀ k, (q.elems k).map (fun el => el.checked) = (p.elems k).map (fun el => el.checked)
  params : q.params = p.params
  wiring : q.wiring = p.wiring

/-- The id of the input of a field definition. -/
def fieldId (d : FieldDef) : JSString := str "field-" ++ d.key

/-- The id of the checkbox of a reason item. -/
def checkboxId (item : ReasonItem) : JSString := str "checkbox-" ++ item.code

/-- The value `followParams` leaves in the field of a definition: the
fragment parameter named `alias || key` when it exists, the old value
otherwise. -/
def paramValue (params : Params) (d : FieldDef) (old : JSString) : JSString :=
  match params.get (orElse d.alias_ d.key) with
  | some v => v
  | none => old

/-- Whether the name `alias || code` of a reason item occurs in the
comma-separated fragment parameter of the reason group. -/
def listed (params : Params) (reasonsObj : FieldDef) (item : ReasonItem) : Bool :=
  match params.get (orElse reasonsObj.alias_ (str "raisons")) with
  | some v => (split 44 v).contains (orElse item.alias_ item.code)
  | none => false

/-- The checked state `followParams` leaves in a checkbox: checked before,
or the checkbox of a listed item. -/
def tickedState (params : Params) (reasonsObj : FieldDef) (items : List ReasonItem)
    (k : JSString) (el : Element) : Bool :=
  el.checked || items.any (fun item => decide (checkboxId item = k) && listed params reasonsObj item)

/-- Sample collaborators: no accent to remove, a generator that succeeds. -/
def sampleEnv : Env where
  removeAccents := fun s => s
  generatePdf := fun _ _ => some (str "%PDF")
  creationDate := str "2021-05-03"
  creationTime := str "10:30"

/-- A field-definition table: the nine validated fields, three of them with
an alias, a hidden field, and the reason group with two items. -/
def sampleFormData : List (List FieldDef) := [
  [⟨str "firstname", some (str "prenom"), false, none⟩,
   ⟨str "lastname", some (str "nom"), false, none⟩,
   ⟨str "birthday", none, false, none⟩,
   ⟨str "placeofbirth", none, false, none⟩,
   ⟨str "address", none, false, none⟩,
   ⟨str "city", some (str "ville"), false, none⟩,
   ⟨str "zipcode", none, false, none⟩,
   ⟨str "datesortie", none, false, none⟩,
   ⟨str "heuresortie", none, false, none⟩,
   ⟨str "honeypot", none, true, none⟩],
  [⟨str "reason", none, false,
    some [⟨str "travail", none⟩, ⟨str "achats", some (str "courses")⟩]⟩]]

/-- The reason group of `sampleFormData`. -/
def sampleReasons : FieldDef :=
  ⟨str "reason", none, false, some [⟨str "travail", none⟩, ⟨str "achats", some (str "courses")⟩]⟩

/-- The sample form loaded with `#ville=Lyon&raisons=courses,sport&honeypot=x`. -/
def sampleLoaded : Page :=
  Page.ofElems sampleElems
    [(str "ville", str "Lyon"), (str "raisons", str "courses,sport"), (str "honeypot", str "x")]

/-- A table whose reason item `travail` carries the empty alias. -/
def emptyAliasItemData : List (List FieldDef) := [
  [⟨str "city", none, false, none⟩],
  [⟨str "reason", none, false, some [⟨str "travail", some []⟩]⟩]]

/-- The sample form loaded with `#raisons=travail`. -/
def emptyAliasItemLoaded : Page := Page.ofElems sampleElems [(str "raisons", str "travail")]

/-- The element lists `prepareForm` hands to `prepareInputs` on the sample
form. -/
def sampleWiring : Wiring where
  formInputs := [str "field-firstname", str "field-lastname", str "field-birthday",
    str "field-placeofbirth", str "field-address", str "field-city", str "field-zipcode",
    str "field-datesortie", str "field-heuresortie"]
  reasonInputs := [str "checkbox-travail", str "checkbox-achats"]

/-! # Theorems -/

/-! ## Strings and objects -/

theorem replaceClass_nil_mem (cls : Nat → Bool) (s : JSString) (u : Nat) :
    u ∈ replaceClass cls [] s ↔ u ∈ s ∧ cls u = false := by
  simp only [replaceClass, List.mem_flatMap]
  constructor
  · rintro ⟨a, ha, h⟩
    by_cases hc : cls a = true
    · simp [hc] at h
    · simp only [hc, List.mem_singleton] at h
      simp only [Bool.false_eq_true, if_false, List.mem_singleton] at h
      subst h
      exact ⟨ha, by simpa using hc⟩
  · rintro ⟨hu, hc⟩
    exact ⟨u, hu, by simp [hc]⟩

/-- Claim C9: for every string input, and whatever the accent-removal step
returns, `toAscii` returns a string all of whose code units lie in
0x00-0x7F, hence none of them a combining mark; it fails exactly when the
input is not a string. -/
theorem toAscii_returns_ascii (removeAccents : JSString → JSString) (s : JSString) :
    (∃ out, toAscii removeAccents (.string s) = .ok out ∧
      (∀ u ∈ out, 0x00 ≤ u ∧ u ≤ 0x7F) ∧ (∀ u ∈ out, ¬ isCombiningMark u)) ∧
    (∀ v : JSValue, (∃ e, toAscii removeAccents v = .error e) ↔ ∀ t, v ≠ .string t) := by
  refine ⟨⟨_, rfl, ?_, ?_⟩, ?_⟩
  · intro u hu
    rw [replaceClass_nil_mem] at hu
    have := hu.2
    simp [nonAscii] at this
    omega
  · intro u hu
    rw [replaceClass_nil_mem] at hu
    have := hu.2
    simp [nonAscii] at this
    simp [isCombiningMark]; omega
  · intro v
    cases v <;> simp [toAscii]

theorem joinFrom_eq (sep acc : JSString) (xs : List JSString) :
    joinFrom sep acc false xs = acc ++ (xs.map (fun x => sep ++ x)).flatten := by
  induction xs generalizing acc with
  | nil => simp [joinFrom]
  | cons x xs ih => simp [joinFrom, ih]

theorem join_eq_intercalate (sep : JSString) (xs : List JSString) :
    join sep xs = List.intercalate sep xs := by
  cases xs with
  | nil => simp [join, joinFrom, List.intercalate]
  | cons x xs =>
    simp only [join, joinFrom, joinFrom_eq, List.nil_append]
    induction xs generalizing x with
    | nil => simp [List.intercalate]
    | cons y ys ih =>
      have := ih y
      simp [List.intercalate, List.intersperse] at this ⊢
      rw [← this]

/-- Claim C4: `getReasons` returns the values of exactly the checked
controls, in their original order, joined with ", "; it returns the empty
string for the empty list and for a list with no checked control, and
"A, C" for checked A, unchecked B, checked C. -/
theorem getReasons_joins_checked (reasonInputs : List ReasonInput) :
    getReasons reasonInputs =
      List.intercalate (str ", ")
        ((reasonInputs.filter (fun input => input.checked)).map (fun input => input.value)) ∧
    ((∀ input ∈ reasonInputs, input.checked = false) → getReasons reasonInputs = []) ∧
    getReasons [] = [] ∧
    getReasons [⟨true, str "A"⟩, ⟨false, str "B"⟩, ⟨true, str "C"⟩] = str "A, C" := by
  refine ⟨by simp [getReasons, join_eq_intercalate], ?_, by decide, by decide⟩
  intro h
  have : reasonInputs.filter (fun input => input.checked) = [] := by
    rw [List.filter_eq_nil_iff]
    intro a ha
    simp [h a ha]
  simp [getReasons, this, join, joinFrom]

theorem split_ne_nil (sep : Nat) (s : JSString) : split sep s ≠ [] := by
  induction s with
  | nil => simp [split]
  | cons c cs ih =>
    simp only [split]
    split_ifs
    · simp
    · cases h : split sep cs <;> simp

theorem mem_iter (f : MState → List MState) (L : Nat → JSString → Prop)
    (hf : ∀ st x, x ∈ f st ↔ ∃ w, st.2 = w ++ x.2 ∧ x.1 = st.1 + w.length ∧ L st.1 w)
    (n : Nat) (st x : MState) :
    x ∈ iter f n st ↔ ∃ w, st.2 = w ++ x.2 ∧ x.1 = st.1 + w.length ∧ MatchesPow L n st.1 w := by
  induction n generalizing st with
  | zero =>
    simp only [iter, List.mem_singleton, MatchesPow]
    constructor
    · rintro rfl
      exact ⟨[], by simp⟩
    · rintro ⟨w, h1, h2, rfl⟩
      simp at h1 h2
      exact Prod.ext h2 h1.symm
  | succ n ih =>
    simp only [iter, List.mem_flatMap, MatchesPow]
    constructor
    · rintro ⟨m, hm, hx⟩
      obtain ⟨u, hu1, hu2, hu3⟩ := (hf st m).1 hm
      obtain ⟨v, hv1, hv2, hv3⟩ := (ih m).1 hx
      refine ⟨u ++ v, ?_, ?_, u, v, rfl, hu3, ?_⟩
      · rw [hu1, hv1, List.append_assoc]
      · rw [hv2, hu2, List.length_append, Nat.add_assoc]
      · rw [← hu2]; exact hv3
    · rintro ⟨w, h1, h2, u, v, rfl, hu, hv⟩
      refine ⟨(st.1 + u.length, v ++ x.2), (hf st _).2 ⟨u, ?_, rfl, hu⟩, (ih _).2 ⟨v, rfl, ?_, hv⟩⟩
      · simpa [List.append_assoc] using h1
      · simp only [h2, List.length_append, Nat.add_assoc]

theorem mem_ends (r : Regex) (st x : MState) :
    x ∈ ends r st ↔ ∃ w, st.2 = w ++ x.2 ∧ x.1 = st.1 + w.length ∧ Matches r st.1 w := by
  induction r generalizing st x with
  | bol =>
    simp only [ends, Matches]
    constructor
    · intro h
      split_ifs at h with h0
      · simp only [List.mem_singleton] at h
        subst h
        exact ⟨[], by simp [h0]⟩
      · simp at h
    · rintro ⟨w, h1, h2, h0, rfl⟩
      simp only [List.nil_append, List.length_nil, Nat.add_zero] at h1 h2
      simp only [h0, if_true, List.mem_singleton]
      exact Prod.ext h2 h1.symm
  | unit c =>
    obtain ⟨i, s⟩ := st
    obtain ⟨j, t⟩ := x
    simp only [ends, Matches]
    cases s with
    | nil => simp
    | cons a s =>
      simp only
      constructor
      · intro h
        split_ifs at h with hc
        · simp only [List.mem_singleton, Prod.mk.injEq] at h
          exact ⟨[c], by simp [hc, h.1, h.2]⟩
        · simp at h
      · rintro ⟨w, h1, h2, rfl⟩
        simp at h1 h2
        simp [h1.1, h1.2, h2]
  | range lo hi =>
    obtain ⟨i, s⟩ := st
    obtain ⟨j, t⟩ := x
    simp only [ends, Matches]
    cases s with
    | nil => simp
    | cons a s =>
      simp only
      constructor
      · intro h
        split_ifs at h with hc
        · simp only [List.mem_singleton, Prod.mk.injEq] at h
          exact ⟨[a], by simp [h.2], by simp [h.1], a, hc.1, hc.2, rfl⟩
        · simp at h
      · rintro ⟨w, h1, h2, c, hlo, hhi, rfl⟩
        simp at h1 h2
        simp [h1.1, h1.2, h2, hlo, hhi]
  | digit =>
    obtain ⟨i, s⟩ := st
    obtain ⟨j, t⟩ := x
    simp only [ends, Matches]
    cases s with
    | nil => simp
    | cons a s =>
      simp only
      constructor
      · intro h
        split_ifs at h with hc
        · simp only [List.mem_singleton, Prod.mk.injEq] at h
          exact ⟨[a], by simp [h.2], by simp [h.1], a, hc.1, hc.2, rfl⟩
        · simp at h
      · rintro ⟨w, h1, h2, c, hlo, hhi, rfl⟩
        simp at h1 h2
        simp [h1.1, h1.2, h2, hlo, hhi]
  | seq a b iha ihb =>
    simp only [ends, Matches, List.mem_flatMap]
    constructor
    · rintro ⟨m, hm, hx⟩
      obtain ⟨u, hu1, hu2, hu3⟩ := (iha st m).1 hm
      obtain ⟨v, hv1, hv2, hv3⟩ := (ihb m x).1 hx
      refine ⟨u ++ v, ?_, ?_, u, v, rfl, hu3, ?_⟩
      · rw [hu1, hv1, List.append_assoc]
      · rw [hv2, hu2, List.length_append, Nat.add_assoc]
      · rw [← hu2]; exact hv3
    · rintro ⟨w, h1, h2, u, v, rfl, hu, hv⟩
      refine ⟨(st.1 + u.length, v ++ x.2), (iha st _).2 ⟨u, ?_, rfl, hu⟩,
        (ihb _ x).2 ⟨v, rfl, ?_, hv⟩⟩
      · simpa [List.append_assoc] using h1
      · simp only [h2, List.length_append, Nat.add_assoc]
  | alt a b iha ihb =>
    simp only [ends, Matches, List.mem_append, iha, ihb]
    constructor
    · rintro (⟨w, h1, h2, h3⟩ | ⟨w, h1, h2, h3⟩)
      · exact ⟨w, h1, h2, Or.inl h3⟩
      · exact ⟨w, h1, h2, Or.inr h3⟩
    · rintro ⟨w, h1, h2, h3 | h3⟩
      · exact Or.inl ⟨w, h1, h2, h3⟩
      · exact Or.inr ⟨w, h1, h2, h3⟩
  | times n a iha =>
    simp only [ends, Matches]
    exact mem_iter (ends a) (Matches a) (fun st x => iha st x) n st x

theorem matchesAt_iff (r : Regex) (s : JSString) (k : Nat) :
    matchesAt r s k = true ↔ ∃ w post, s.drop k = w ++ post ∧ Matches r k w := by
  simp only [matchesAt, Bool.not_eq_true', List.isEmpty_eq_false]
  constructor
  · intro h
    obtain ⟨x, hx⟩ := List.exists_mem_of_ne_nil _ h
    obtain ⟨w, h1, _, h3⟩ := (mem_ends r _ x).1 hx
    exact ⟨w, x.2, h1, h3⟩
  · rintro ⟨w, post, h1, h2⟩
    have : (k + w.length, post) ∈ ends r (k, s.drop k) :=
      (mem_ends r _ _).2 ⟨w, h1, rfl, h2⟩
    exact List.ne_nil_of_mem this

theorem hasMatch_iff (r : Regex) (s : JSString) : hasMatch r s = true ↔ ContainsMatch r s := by
  simp only [hasMatch, List.any_eq_true, List.mem_range, matchesAt_iff, ContainsMatch]
  constructor
  · rintro ⟨k, hk, w, post, h1, h2⟩
    refine ⟨s.take k, w, post, ?_, ?_⟩
    · rw [List.append_assoc, ← h1, List.take_append_drop]
    · rw [List.length_take, Nat.min_eq_left (by omega)]; exact h2
  · rintro ⟨pre, w, post, rfl, h⟩
    refine ⟨pre.length, by simp; omega, w, post, by simp, h⟩

/-! ## The birthday rule -/

theorem matches_unit_unit (a b : Nat) (i : Nat) (w : JSString) :
    Matches (.seq (.unit a) (.unit b)) i w ↔ w = [a, b] := by
  simp only [Matches]
  constructor
  · rintro ⟨u, v, rfl, rfl, rfl⟩; rfl
  · rintro rfl; exact ⟨[a], [b], rfl, rfl, rfl⟩

theorem matches_range_range (l1 h1 l2 h2 : Nat) (i : Nat) (w : JSString) :
    Matches (.seq (.range l1 h1) (.range l2 h2)) i w ↔
      ∃ a b, w = [a, b] ∧ l1 ≤ a ∧ a ≤ h1 ∧ l2 ≤ b ∧ b ≤ h2 := by
  simp only [Matches]
  constructor
  · rintro ⟨u, v, rfl, ⟨a, ha1, ha2, rfl⟩, ⟨b, hb1, hb2, rfl⟩⟩
    exact ⟨a, b, rfl, ha1, ha2, hb1, hb2⟩
  · rintro ⟨a, b, rfl, ha1, ha2, hb1, hb2⟩
    exact ⟨[a], [b], rfl, ⟨a, ha1, ha2, rfl⟩, ⟨b, hb1, hb2, rfl⟩⟩

theorem matches_day (i : Nat) (w : JSString) :
    Matches dayPattern i w ↔
      ∃ a b, w = [a, b] ∧ isDigit a ∧ isDigit b ∧ 1 ≤ number2 a b ∧ number2 a b ≤ 31 := by
  have hd : dayPattern = .alt (.seq (.range 48 48) (.range 49 57))
      (.alt (.seq (.range 49 50) (.range 48 57))
        (.alt (.seq (.unit 51) (.unit 48)) (.seq (.unit 51) (.unit 49)))) := by decide
  rw [hd]
  simp only [Matches.eq_6, matches_unit_unit, matches_range_range, isDigit, number2]
  constructor
  · rintro (⟨a, b, rfl, h⟩ | ⟨a, b, rfl, h⟩ | rfl | rfl)
    · exact ⟨a, b, rfl, by omega⟩
    · exact ⟨a, b, rfl, by omega⟩
    · exact ⟨51, 48, rfl, by omega⟩
    · exact ⟨51, 49, rfl, by omega⟩
  · rintro ⟨a, b, rfl, h⟩
    have : (48 ≤ a ∧ a ≤ 48 ∧ 49 ≤ b ∧ b ≤ 57) ∨ (49 ≤ a ∧ a ≤ 50 ∧ 48 ≤ b ∧ b ≤ 57) ∨
        (a = 51 ∧ b = 48) ∨ (a = 51 ∧ b = 49) := by omega
    rcases this with h1 | h1 | ⟨rfl, rfl⟩ | ⟨rfl, rfl⟩
    · exact Or.inl ⟨a, b, rfl, h1⟩
    · exact Or.inr (Or.inl ⟨a, b, rfl, h1⟩)
    · exact Or.inr (Or.inr (Or.inl rfl))
    · exact Or.inr (Or.inr (Or.inr rfl))

theorem matches_month (i : Nat) (w : JSString) :
    Matches monthPattern i w ↔
      ∃ a b, w = [a, b] ∧ isDigit a ∧ isDigit b ∧ 1 ≤ number2 a b ∧ number2 a b ≤ 12 := by
  have hd : monthPattern = .alt (.seq (.range 48 48) (.range 49 57))
      (.alt (.seq (.unit 49) (.unit 48))
        (.alt (.seq (.unit 49) (.unit 49)) (.seq (.unit 49) (.unit 50)))) := by decide
  rw [hd]
  simp only [Matches.eq_6, matches_unit_unit, matches_range_range, isDigit, number2]
  constructor
  · rintro (⟨a, b, rfl, h⟩ | rfl | rfl | rfl)
    · exact ⟨a, b, rfl, by omega⟩
    · exact ⟨49, 48, rfl, by omega⟩
    · exact ⟨49, 49, rfl, by omega⟩
    · exact ⟨49, 50, rfl, by omega⟩
  · rintro ⟨a, b, rfl, h⟩
    have : (48 ≤ a ∧ a ≤ 48 ∧ 49 ≤ b ∧ b ≤ 57) ∨ (a = 49 ∧ b = 48) ∨
        (a = 49 ∧ b = 49) ∨ (a = 49 ∧ b = 50) := by omega
    rcases this with h1 | ⟨rfl, rfl⟩ | ⟨rfl, rfl⟩ | ⟨rfl, rfl⟩
    · exact Or.inl ⟨a, b, rfl, h1⟩
    · exact Or.inr (Or.inl rfl)
    · exact Or.inr (Or.inr (Or.inl rfl))
    · exact Or.inr (Or.inr (Or.inr rfl))

theorem matches_unit (c : Nat) (i : Nat) (w : JSString) :
    Matches (.unit c) i w ↔ w = [c] := Iff.rfl

theorem matches_unit_cons (c : Nat) (r : Regex) (i : Nat) (w : JSString) :
    Matches (.seq (.unit c) r) i w ↔ ∃ v, w = c :: v ∧ Matches r (i + 1) v := by
  simp only [Matches]
  constructor
  · rintro ⟨u, v, rfl, rfl, h⟩; exact ⟨v, rfl, h⟩
  · rintro ⟨v, rfl, h⟩; exact ⟨[c], v, rfl, rfl, h⟩

theorem matches_year (i : Nat) (w : JSString) :
    Matches yearPattern i w ↔
      ∃ a b c d, w = [a, b, c, d] ∧ isDigit a ∧ isDigit b ∧ isDigit c ∧ isDigit d ∧
        1900 ≤ number4 a b c d ∧ number4 a b c d ≤ 2020 := by
  have hd : yearPattern =
      .alt (.seq (.unit 49) (.seq (.unit 57) (.seq (.range 48 57) (.range 48 57))))
      (.alt (.seq (.unit 50) (.seq (.unit 48) (.seq (.range 48 49) (.range 48 57))))
        (.seq (.unit 50) (.seq (.unit 48) (.seq (.unit 50) (.unit 48))))) := by decide
  rw [hd]
  simp only [Matches.eq_6, matches_unit_cons, matches_unit, matches_range_range, isDigit,
    number4]
  constructor
  · rintro (⟨_, rfl, _, rfl, c, d, rfl, h⟩ | ⟨_, rfl, _, rfl, c, d, rfl, h⟩ |
      ⟨_, rfl, _, rfl, _, rfl, rfl⟩)
    · exact ⟨49, 57, c, d, rfl, by omega⟩
    · exact ⟨50, 48, c, d, rfl, by omega⟩
    · exact ⟨50, 48, 50, 48, rfl, by omega⟩
  · rintro ⟨a, b, c, d, rfl, h⟩
    have : (a = 49 ∧ b = 57 ∧ 48 ≤ c ∧ c ≤ 57 ∧ 48 ≤ d ∧ d ≤ 57) ∨
        (a = 50 ∧ b = 48 ∧ 48 ≤ c ∧ c ≤ 49 ∧ 48 ≤ d ∧ d ≤ 57) ∨
        (a = 50 ∧ b = 48 ∧ c = 50 ∧ d = 48) := by omega
    rcases this with ⟨rfl, rfl, h1⟩ | ⟨rfl, rfl, h1⟩ | ⟨rfl, rfl, rfl, rfl⟩
    · exact Or.inl ⟨_, rfl, _, rfl, c, d, rfl, h1⟩
    · exact Or.inr (Or.inl ⟨_, rfl, _, rfl, c, d, rfl, h1⟩)
    · exact Or.inr (Or.inr ⟨_, rfl, _, rfl, _, rfl, rfl⟩)

theorem matches_birthday (i : Nat) (w : JSString) :
    Matches birthdayPattern i w ↔
      i = 0 ∧ ∃ d1 d2 m1 m2 y1 y2 y3 y4, w = [d1, d2, 47, m1, m2, 47, y1, y2, y3, y4] ∧
        (isDigit d1 ∧ isDigit d2 ∧ 1 ≤ number2 d1 d2 ∧ number2 d1 d2 ≤ 31) ∧
        (isDigit m1 ∧ isDigit m2 ∧ 1 ≤ number2 m1 m2 ∧ number2 m1 m2 ≤ 12) ∧
        (isDigit y1 ∧ isDigit y2 ∧ isDigit y3 ∧ isDigit y4 ∧
          1900 ≤ number4 y1 y2 y3 y4 ∧ number4 y1 y2 y3 y4 ≤ 2020) := by
  have hd : birthdayPattern = .seq .bol (.seq dayPattern (.seq (.unit 47)
      (.seq monthPattern (.seq (.unit 47) yearPattern)))) := by decide
  rw [hd]
  constructor
  · intro h
    obtain ⟨u0, v0, rfl, ⟨hi, rfl⟩, h0⟩ := h
    obtain ⟨u1, v1, rfl, hday, h1⟩ := h0
    obtain ⟨d1, d2, rfl, hd⟩ := (matches_day _ _).1 hday
    obtain ⟨v2, rfl, h2⟩ := (matches_unit_cons _ _ _ _).1 h1
    obtain ⟨u3, v3, rfl, hmonth, h3⟩ := h2
    obtain ⟨m1, m2, rfl, hm⟩ := (matches_month _ _).1 hmonth
    obtain ⟨v4, rfl, h4⟩ := (matches_unit_cons _ _ _ _).1 h3
    obtain ⟨y1, y2, y3, y4, rfl, hy⟩ := (matches_year _ _).1 h4
    exact ⟨hi, d1, d2, m1, m2, y1, y2, y3, y4, rfl, hd, hm, hy⟩
  · rintro ⟨rfl, d1, d2, m1, m2, y1, y2, y3, y4, rfl, hd, hm, hy⟩
    refine ⟨[], _, rfl, ⟨rfl, rfl⟩, [d1, d2], _, rfl, (matches_day _ _).2 ⟨d1, d2, rfl, hd⟩, ?_⟩
    refine (matches_unit_cons _ _ _ _).2 ⟨_, rfl, ?_⟩
    refine ⟨[m1, m2], _, rfl, (matches_month _ _).2 ⟨m1, m2, rfl, hm⟩, ?_⟩
    refine (matches_unit_cons _ _ _ _).2 ⟨_, rfl, ?_⟩
    exact (matches_year _ _).2 ⟨y1, y2, y3, y4, rfl, hy⟩

theorem containsMatch_birthday (v : JSString) :
    ContainsMatch birthdayPattern v ↔ BeginsWithDate v := by
  simp only [ContainsMatch, matches_birthday, BeginsWithDate]
  constructor
  · rintro ⟨pre, w, post, rfl, hpre, d1, d2, m1, m2, y1, y2, y3, y4, rfl, h⟩
    have : pre = [] := List.length_eq_zero.1 hpre
    subst this
    exact ⟨d1, d2, m1, m2, y1, y2, y3, y4, post, rfl, h⟩
  · rintro ⟨d1, d2, m1, m2, y1, y2, y3, y4, rest, rfl, h⟩
    exact ⟨[], _, rest, rfl, rfl, d1, d2, m1, m2, y1, y2, y3, y4, rfl, h⟩

/-- Claim C10: the rule of `#field-birthday` is its pattern alone, and it
accepts a value exactly when the value begins with `DD/MM/YYYY`, with a
two-digit day 01-31, a two-digit month 01-12 and a year 1900-2020; nothing
after these ten characters and no calendar consistency is checked:
"31/02/2020xyz" is valid, "01/01/2021", "00/01/2000" and "1/1/2000" are not. -/
theorem birthday_rule_accepts :
    List.lookup (str "#field-birthday") conditions = some ⟨some birthdayPattern, none⟩ ∧
    (∀ v : JSString, isInvalid ⟨some birthdayPattern, none⟩ v = false ↔ BeginsWithDate v) ∧
    isInvalid ⟨some birthdayPattern, none⟩ (str "31/02/2020xyz") = false ∧
    isInvalid ⟨some birthdayPattern, none⟩ (str "01/01/2021") = true ∧
    isInvalid ⟨some birthdayPattern, none⟩ (str "00/01/2000") = true ∧
    isInvalid ⟨some birthdayPattern, none⟩ (str "1/1/2000") = true := by
  refine ⟨by decide, ?_, by decide, by decide, by decide, by decide⟩
  intro v
  rw [← containsMatch_birthday, ← hasMatch_iff]
  simp [isInvalid]

/-! ## The walk of `validateAriaFields` -/

theorem isInvalid_iff (c : Condition) (v : JSString) : isInvalid c v = true ↔ Violates c v := by
  obtain ⟨pat, len⟩ := c
  cases pat <;> cases len <;>
    simp [isInvalid, Violates, ← hasMatch_iff, List.length_eq_zero]

theorem querySelector_eq_some (p : Page) (sel id : JSString) :
    querySelector p sel = some id ↔ sel = 35 :: id ∧ (p.elems id).isSome = true := by
  unfold querySelector
  split
  · next k =>
    by_cases h : (p.elems k).isSome = true
    · simp only [h, if_true, Option.some.injEq, List.cons.injEq, true_and]
      constructor
      · rintro rfl; exact ⟨rfl, h⟩
      · rintro ⟨rfl, _⟩; rfl
    · simp only [h, if_false, List.cons.injEq, true_and]
      constructor
      · intro h1; cases h1
      · rintro ⟨rfl, h2⟩; exact absurd h2 h
  · next hne =>
    constructor
    · intro h1; cases h1
    · rintro ⟨rfl, _⟩; exact (hne id rfl).elim

theorem validateField_ok (c : Condition) (p : Page) (id : JSString) (el : Element)
    (h : p.elems id = some el) :
    validateField (35 :: id) c p =
      (if isInvalid c el.value = true then
          (p.setElem id { el with ariaInvalid := some (isInvalid c el.value) }).focus id
        else p.setElem id { el with ariaInvalid := some (isInvalid c el.value) },
        .ok (isInvalid c el.value)) := by
  simp [validateField, querySelector, h]

theorem fieldValue_congr (p q : Page) (sel : JSString)
    (h : ∀ k, (q.elems k).map (fun el => el.value) = (p.elems k).map (fun el => el.value)) :
    q.fieldValue sel = p.fieldValue sel := by
  have := h (sel.drop 1)
  unfold Page.fieldValue
  cases hq : q.elems (sel.drop 1) with
  | none =>
    cases hp : p.elems (sel.drop 1) with
    | none => rfl
    | some e => rw [hq, hp] at this; simp at this
  | some e1 =>
    cases hp : p.elems (sel.drop 1) with
    | none => rw [hq, hp] at this; simp at this
    | some e2 =>
      rw [hq, hp] at this
      simpa using this

theorem invalidFields_congr (p q : Page) (l : List (JSString × Condition))
    (h : ∀ k, (q.elems k).map (fun el => el.value) = (p.elems k).map (fun el => el.value)) :
    invalidFields q l = invalidFields p l := by
  unfold invalidFields
  congr 2
  funext kv
  rw [fieldValue_congr p q kv.1 h]

theorem mapFields_spec (l : List (JSString × Condition)) (p : Page)
    (hnd : (l.map Prod.fst).Nodup)
    (hex : ∀ kv ∈ l, (querySelector p kv.1).isSome = true) :
    ∃ q bs, mapFields l p = (q, .ok bs) ∧ AriaPost l p q bs := by
  induction l generalizing p with
  | nil =>
    refine ⟨p, [], rfl, ?_⟩
    constructor <;> simp [invalidFields]
  | cons kv rest ih =>
    obtain ⟨sel, c⟩ := kv
    simp only [List.map_cons, List.nodup_cons, List.mem_map, not_exists, not_and] at hnd
    obtain ⟨id, hid⟩ := Option.isSome_iff_exists.1 (hex (sel, c) (by simp))
    obtain ⟨rfl, hsome⟩ := (querySelector_eq_some p sel id).1 hid
    obtain ⟨el, hel⟩ := Option.isSome_iff_exists.1 hsome
    have hstep := validateField_ok c p id el hel
    -- the page after the first entry
    obtain ⟨p1, hp1⟩ : ∃ p1, p1 = (if isInvalid c el.value = true then
          (p.setElem id { el with ariaInvalid := some (isInvalid c el.value) }).focus id
        else p.setElem id { el with ariaInvalid := some (isInvalid c el.value) }) := ⟨_, rfl⟩
    rw [← hp1] at hstep
    have helems : p1.elems = fun k =>
        if k = id then some { el with ariaInvalid := some (isInvalid c el.value) }
        else p.elems k := by
      rw [hp1]; split_ifs <;> rfl
    have hfc1 : p1.focusCalls = p.focusCalls ++ (if isInvalid c el.value = true then [id] else []) := by
      rw [hp1]; split_ifs <;> simp [Page.focus, Page.setElem]
    have hact1 : p1.activeElement =
        if isInvalid c el.value = true then some id else p.activeElement := by
      rw [hp1]; split_ifs <;> simp [Page.focus, Page.setElem]
    have hval1 : ∀ k, (p1.elems k).map (fun el => el.value) =
        (p.elems k).map (fun el => el.value) := by
      intro k
      rw [helems]
      by_cases hk : k = id
      · subst hk; simp [hel]
      · simp [hk]
    have hchk1 : ∀ k, (p1.elems k).map (fun el => el.checked) =
        (p.elems k).map (fun el => el.checked) := by
      intro k
      rw [helems]
      by_cases hk : k = id
      · subst hk; simp [hel]
      · simp [hk]
    have hex1 : ∀ kv ∈ rest, (querySelector p1 kv.1).isSome = true := by
      intro kv hkv
      obtain ⟨k, hk⟩ := Option.isSome_iff_exists.1 (hex kv (by simp [hkv]))
      obtain ⟨hk1, hk2⟩ := (querySelector_eq_some p kv.1 k).1 hk
      have : querySelector p1 kv.1 = some k := by
        rw [querySelector_eq_some]
        refine ⟨hk1, ?_⟩
        have := hval1 k
        cases h1 : p1.elems k <;> cases h2 : p.elems k <;> simp_all
      rw [this]; rfl
    obtain ⟨q, bs, hq, post⟩ := ih p1 hnd.2 hex1
    refine ⟨q, isInvalid c el.value :: bs, ?_, ?_⟩
    · simp only [mapFields, hstep, hq]
    have hfv : p.fieldValue (35 :: id) = el.value := by
      simp [Page.fieldValue, hel]
    have hinv : invalidFields p ((35 :: id, c) :: rest) =
        (if isInvalid c el.value = true then [id] else []) ++ invalidFields p1 rest := by
      rw [invalidFields_congr p p1 rest hval1]
      simp only [invalidFields, List.filter_cons, hfv]
      split_ifs <;> simp
    constructor
    · rw [post.results]
      simp only [List.map_cons, hfv, List.cons.injEq, true_and]
      apply List.map_congr_left
      intro kv _
      rw [fieldValue_congr p p1 kv.1 hval1]
    · intro k; rw [post.value, hval1]
    · intro k; rw [post.checked, hchk1]
    · intro k hk
      have hne : k ≠ id := by
        rintro rfl
        exact hk (35 :: k, c) (by simp) rfl
      rw [post.other k (fun kv hkv => hk kv (by simp [hkv])), helems]
      simp [hne]
    · intro kv hkv k e hsel hke
      rcases List.mem_cons.1 hkv with rfl | hmem
      · simp only [List.cons.injEq, true_and] at hsel
        subst hsel
        rw [hel] at hke
        cases hke
        rw [post.other id (fun kv hkv h => hnd.1 kv hkv h), helems]
        simp
      · have hne : k ≠ id := by
          rintro rfl
          exact hnd.1 kv hmem hsel
        have : p1.elems k = some e := by rw [helems]; simp [hne, hke]
        exact post.aria kv hmem k e hsel this
    · rw [post.focusCalls, hinv, hfc1]
      split_ifs <;> simp
    · rw [post.active, hinv, hact1]
      cases hl : (invalidFields p1 rest).getLast? with
      | none =>
        have hnil : invalidFields p1 rest = [] := List.getLast?_eq_none_iff.1 hl
        rw [hnil]
        split_ifs <;> simp
      | some a =>
        have hne : invalidFields p1 rest ≠ [] := by
          intro h; rw [h] at hl; simp at hl
        rw [List.getLast?_append_of_ne_nil _ hne, hl]
    · rw [post.params, hp1]; split_ifs <;> rfl
    · rw [post.wiring, hp1]; split_ifs <;> rfl

/-! ## `validateAriaFields` -/

theorem conditions_nodup : (conditions.map Prod.fst).Nodup := by decide

theorem validateAriaFields_post (p : Page)
    (hex : ∀ kv ∈ conditions, (querySelector p kv.1).isSome = true) :
    ∃ q bs, validateAriaFields p = (q, .ok (bs.contains true)) ∧ AriaPost conditions p q bs := by
  obtain ⟨q, bs, h, post⟩ := mapFields_spec conditions p conditions_nodup hex
  exact ⟨q, bs, by simp only [validateAriaFields, h], post⟩

theorem conditions_selector : ∀ kv ∈ conditions, kv.1 = 35 :: kv.1.drop 1 := by decide

theorem contains_true_iff (p : Page) (l : List (JSString × Condition)) :
    (l.map (fun kv => isInvalid kv.2 (p.fieldValue kv.1))).contains true = true ↔
      ∃ kv ∈ l, Violates kv.2 (p.fieldValue kv.1) := by
  simp only [List.contains_eq_any_beq, List.any_eq_true, List.mem_map, beq_iff_eq]
  constructor
  · rintro ⟨_, ⟨kv, hkv, rfl⟩, h⟩
    exact ⟨kv, hkv, (isInvalid_iff _ _).1 h.symm⟩
  · rintro ⟨kv, hkv, h⟩
    exact ⟨_, ⟨kv, hkv, rfl⟩, ((isInvalid_iff _ _).2 h).symm⟩

/-- Claim C1: on a page holding the fields of the rule table,
`validateAriaFields` returns, leaves every field of the table with its
`aria-invalid` attribute set to whether its own value violates its own rule
(and its value and checked state as they were), returns true exactly when
some field violates its rule, and with no violation returns false and sets
every `aria-invalid` to false. -/
theorem validateAriaFields_aria (p : Page)
    (hex : ∀ kv ∈ conditions, (querySelector p kv.1).isSome = true) :
    (∀ kv ∈ conditions, (kv.2.pattern.isSome = true ∧ kv.2.length = none) ∨
      kv.2 = ⟨none, some 1⟩) ∧
    ∃ q b, validateAriaFields p = (q, .ok b) ∧
      (∀ kv ∈ conditions, ∃ el a, p.elems (kv.1.drop 1) = some el ∧
        q.elems (kv.1.drop 1) = some { el with ariaInvalid := some a } ∧
        (a = true ↔ Violates kv.2 el.value)) ∧
      (b = true ↔ ∃ kv ∈ conditions, Violates kv.2 (p.fieldValue kv.1)) ∧
      ((∀ kv ∈ conditions, ¬ Violates kv.2 (p.fieldValue kv.1)) →
        b = false ∧ ∀ kv ∈ conditions, ∃ el, p.elems (kv.1.drop 1) = some el ∧
          q.elems (kv.1.drop 1) = some { el with ariaInvalid := some false }) := by
  refine ⟨by decide, ?_⟩
  obtain ⟨q, bs, h, post⟩ := validateAriaFields_post p hex
  have hfield : ∀ kv ∈ conditions, ∃ el, p.elems (kv.1.drop 1) = some el ∧
      p.fieldValue kv.1 = el.value ∧
      q.elems (kv.1.drop 1) = some { el with ariaInvalid := some (isInvalid kv.2 el.value) } := by
    intro kv hkv
    obtain ⟨k, hk⟩ := Option.isSome_iff_exists.1 (hex kv hkv)
    obtain ⟨hk1, hk2⟩ := (querySelector_eq_some p kv.1 k).1 hk
    obtain ⟨el, hel⟩ := Option.isSome_iff_exists.1 hk2
    have hdrop : kv.1.drop 1 = k := by rw [hk1]; rfl
    rw [hdrop]
    exact ⟨el, hel, by simp [Page.fieldValue, hdrop, hel], post.aria kv hkv k el hk1 hel⟩
  have hb : bs.contains true = true ↔ ∃ kv ∈ conditions, Violates kv.2 (p.fieldValue kv.1) := by
    rw [post.results]; exact contains_true_iff p conditions
  refine ⟨q, bs.contains true, h, ?_, hb, ?_⟩
  · intro kv hkv
    obtain ⟨el, hel, _, hq⟩ := hfield kv hkv
    exact ⟨el, _, hel, hq, isInvalid_iff _ _⟩
  · intro hno
    refine ⟨?_, ?_⟩
    · cases hc : bs.contains true
      · rfl
      · obtain ⟨kv, hkv, hv⟩ := hb.1 hc
        exact absurd hv (hno kv hkv)
    · intro kv hkv
      obtain ⟨el, hel, hfv, hq⟩ := hfield kv hkv
      have : isInvalid kv.2 el.value = false := by
        cases hc : isInvalid kv.2 el.value
        · rfl
        · exact absurd (hfv ▸ (isInvalid_iff _ _).1 hc) (hno kv hkv)
      rw [this] at hq
      exact ⟨el, hel, hq⟩

theorem mem_invalidFields (p : Page) (l : List (JSString × Condition)) (id : JSString) :
    id ∈ invalidFields p l ↔
      ∃ kv ∈ l, kv.1.drop 1 = id ∧ Violates kv.2 (p.fieldValue kv.1) := by
  simp only [invalidFields, List.mem_map, List.mem_filter, isInvalid_iff]
  constructor
  · rintro ⟨kv, ⟨h1, h2⟩, h3⟩; exact ⟨kv, h1, h3, h2⟩
  · rintro ⟨kv, h1, h3, h2⟩; exact ⟨kv, ⟨h1, h2⟩, h3⟩

/-- Claim C2: on a page holding the fields of the rule table,
`validateAriaFields` calls `focus()` on exactly the fields that violate their
rule, in rule-table order; with at least one violation it returns true and the
focused element is the last of them; with none it returns false and focus is
where it was. -/
theorem validateAriaFields_focus (p : Page)
    (hex : ∀ kv ∈ conditions, (querySelector p kv.1).isSome = true) :
    ∃ q b, validateAriaFields p = (q, .ok b) ∧
      q.focusCalls = p.focusCalls ++ invalidFields p conditions ∧
      (∀ id, id ∈ invalidFields p conditions ↔
        ∃ kv ∈ conditions, kv.1.drop 1 = id ∧ Violates kv.2 (p.fieldValue kv.1)) ∧
      ((∃ kv ∈ conditions, Violates kv.2 (p.fieldValue kv.1)) →
        b = true ∧ ∃ last, (invalidFields p conditions).getLast? = some last ∧
          q.activeElement = some last) ∧
      ((∀ kv ∈ conditions, ¬ Violates kv.2 (p.fieldValue kv.1)) →
        b = false ∧ q.activeElement = p.activeElement ∧ q.focusCalls = p.focusCalls) := by
  obtain ⟨q, bs, h, post⟩ := validateAriaFields_post p hex
  have hb : bs.contains true = true ↔ ∃ kv ∈ conditions, Violates kv.2 (p.fieldValue kv.1) := by
    rw [post.results]; exact contains_true_iff p conditions
  refine ⟨q, bs.contains true, h, post.focusCalls, mem_invalidFields p conditions, ?_, ?_⟩
  · rintro ⟨kv, hkv, hv⟩
    refine ⟨hb.2 ⟨kv, hkv, hv⟩, ?_⟩
    have hmem : kv.1.drop 1 ∈ invalidFields p conditions :=
      (mem_invalidFields p conditions _).2 ⟨kv, hkv, rfl, hv⟩
    cases hl : (invalidFields p conditions).getLast? with
    | none =>
      rw [List.getLast?_eq_none_iff.1 hl] at hmem
      simp at hmem
    | some last =>
      refine ⟨last, rfl, ?_⟩
      rw [post.active, hl]
  · intro hno
    have hnil : invalidFields p conditions = [] := by
      apply List.eq_nil_iff_forall_not_mem.2
      intro id hid
      obtain ⟨kv, hkv, _, hv⟩ := (mem_invalidFields p conditions id).1 hid
      exact hno kv hkv hv
    refine ⟨?_, ?_, ?_⟩
    · cases hc : bs.contains true
      · rfl
      · obtain ⟨kv, hkv, hv⟩ := hb.1 hc
        exact absurd hv (hno kv hkv)
    · rw [post.active, hnil]; rfl
    · rw [post.focusCalls, hnil, List.append_nil]

theorem sample_exists : ∀ kv ∈ conditions, (querySelector samplePage kv.1).isSome = true := by
  decide

/-- Witness of C1: the sample form, whose zip code "7500" has no five
digits. -/
theorem validateAriaFields_aria_sample :
    (∀ kv ∈ conditions, (querySelector samplePage kv.1).isSome = true) ∧
    ∃ q b, validateAriaFields samplePage = (q, .ok b) ∧
      (b = true ↔ ∃ kv ∈ conditions, Violates kv.2 (samplePage.fieldValue kv.1)) ∧
      (validateAriaFields samplePage).2 = .ok true ∧
      ((validateAriaFields samplePage).1.elems (str "field-zipcode")).map
        (fun el => el.ariaInvalid) = some (some true) ∧
      ((validateAriaFields samplePage).1.elems (str "field-city")).map
        (fun el => el.ariaInvalid) = some (some false) := by
  obtain ⟨_, q, b, h, _, hb, _⟩ := validateAriaFields_aria samplePage sample_exists
  exact ⟨sample_exists, q, b, h, hb, by decide, by decide, by decide⟩

/-- Witness of C2: on the sample form only the zip code is invalid, and it
ends with the focus. -/
theorem validateAriaFields_focus_sample :
    (∀ kv ∈ conditions, (querySelector samplePage kv.1).isSome = true) ∧
    ∃ q b, validateAriaFields samplePage = (q, .ok b) ∧
      q.focusCalls = samplePage.focusCalls ++ invalidFields samplePage conditions ∧
      (validateAriaFields samplePage).1.focusCalls = [str "field-zipcode"] ∧
      (validateAriaFields samplePage).1.activeElement = some (str "field-zipcode") := by
  obtain ⟨q, b, h, hf, _⟩ := validateAriaFields_focus samplePage sample_exists
  exact ⟨sample_exists, q, b, h, hf, by decide, by decide⟩

/-! ## Frames of the click handler -/

theorem SameInputs.refl (p : Page) : SameInputs p p :=
  ⟨fun _ => rfl, fun _ => rfl, rfl, rfl⟩

theorem SameInputs.trans {p q r : Page} (h1 : SameInputs p q) (h2 : SameInputs q r) :
    SameInputs p r :=
  ⟨fun k => (h2.value k).trans (h1.value k), fun k => (h2.checked k).trans (h1.checked k),
    h2.params.trans h1.params, h2.wiring.trans h1.wiring⟩

theorem validateField_same (sel : JSString) (c : Condition) (p : Page) :
    SameInputs p (validateField sel c p).1 := by
  cases hq : querySelector p sel with
  | none => simp only [validateField, hq]; exact SameInputs.refl p
  | some id =>
    cases hel : p.elems id with
    | none => simp only [validateField, hq, hel]; exact SameInputs.refl p
    | some el =>
      simp only [validateField, hq, hel]
      split_ifs
      · constructor
        · intro k
          by_cases hk : k = id
          · subst hk; simp [Page.focus, Page.setElem, hel]
          · simp [Page.focus, Page.setElem, hk]
        · intro k
          by_cases hk : k = id
          · subst hk; simp [Page.focus, Page.setElem, hel]
          · simp [Page.focus, Page.setElem, hk]
        · rfl
        · rfl
      · constructor
        · intro k
          by_cases hk : k = id
          · subst hk; simp [Page.setElem, hel]
          · simp [Page.setElem, hk]
        · intro k
          by_cases hk : k = id
          · subst hk; simp [Page.setElem, hel]
          · simp [Page.setElem, hk]
        · rfl
        · rfl

theorem mapFields_same (l : List (JSString × Condition)) (p : Page) :
    SameInputs p (mapFields l p).1 := by
  induction l generalizing p with
  | nil => exact SameInputs.refl p
  | cons kv rest ih =>
    obtain ⟨sel, c⟩ := kv
    have h1 := validateField_same sel c p
    simp only [mapFields]
    cases hv : validateField sel c p with
    | mk p1 r1 =>
      rw [hv] at h1
      cases r1 with
      | error e => exact h1
      | ok b =>
        have h2 := ih p1
        simp only
        cases hm : mapFields rest p1 with
        | mk p2 r2 =>
          rw [hm] at h2
          cases r2 with
          | error e => exact h1.trans h2
          | ok bs => exact h1.trans h2

theorem validateAriaFields_same (p : Page) : SameInputs p (validateAriaFields p).1 := by
  have h := mapFields_same conditions p
  unfold validateAriaFields
  cases hm : mapFields conditions p with
  | mk p1 r1 =>
    rw [hm] at h
    cases r1 <;> exact h

theorem generateClick_same (env : Env) (w : Wiring) (p : Page) :
    SameInputs p (generateClick env w p) := by
  unfold generateClick
  simp only
  split_ifs
  · constructor <;> intros <;> rfl
  · constructor <;> intros <;> rfl
  · have h := validateAriaFields_same p
    cases hv : validateAriaFields p with
    | mk p1 r1 =>
      rw [hv] at h
      cases r1 with
      | error e => exact h
      | ok b =>
        cases b with
        | true => exact h
        | false =>
          simp only
          cases getProfile env.removeAccents (p1.formFields w.formInputs) with
          | error e => exact h
          | ok profile =>
            simp only
            cases env.generatePdf profile (getReasons (p.reasonControls w.reasonInputs)) with
            | none => exact ⟨h.value, h.checked, h.params, h.wiring⟩
            | some blob => exact ⟨h.value, h.checked, h.params, h.wiring⟩

theorem clickGenerate_same (env : Env) (p : Page) : SameInputs p (p.clickGenerate env) := by
  unfold Page.clickGenerate
  cases p.wiring with
  | none => exact SameInputs.refl p
  | some w => exact generateClick_same env w p

theorem getReasons_of_unchecked (reasonInputs : List ReasonInput)
    (h : ∀ input ∈ reasonInputs, input.checked = false) : getReasons reasonInputs = [] := by
  have : reasonInputs.filter (fun input => input.checked) = [] := by
    rw [List.filter_eq_nil_iff]
    intro a ha
    simp [h a ha]
  simp [getReasons, this, join, joinFrom]

/-- Claim C5: when no reason control is checked, the click handler of the
generate button calls neither the document generator nor the download, puts
the class `fieldset-error` on the reason fieldset, reveals the alert, and
leaves every element (so every `aria-invalid`) and the focus as they were. -/
theorem generateClick_without_reason (env : Env) (w : Wiring) (p : Page)
    (h : ∀ input ∈ p.reasonControls w.reasonInputs, input.checked = false) :
    (generateClick env w p).generatorCalls = p.generatorCalls ∧
    (generateClick env w p).downloads = p.downloads ∧
    (generateClick env w p).fieldsetError = true ∧
    (generateClick env w p).alertHidden = false ∧
    (generateClick env w p).elems = p.elems ∧
    (generateClick env w p).activeElement = p.activeElement ∧
    (generateClick env w p).focusCalls = p.focusCalls ∧
    (generateClick env w p).timers = p.timers := by
  have hr : getReasons (p.reasonControls w.reasonInputs) = [] := getReasons_of_unchecked _ h
  unfold generateClick
  simp only [hr, if_true]
  split_ifs <;> simp

/-- Witness of C5: the sample form, whose two reason checkboxes are
unchecked. -/
theorem generateClick_without_reason_sample :
    (∀ input ∈ samplePage.reasonControls sampleWiring.reasonInputs, input.checked = false) ∧
    (generateClick sampleEnv sampleWiring samplePage).generatorCalls = [] ∧
    (generateClick sampleEnv sampleWiring samplePage).downloads = [] ∧
    (generateClick sampleEnv sampleWiring samplePage).fieldsetError = true ∧
    (generateClick sampleEnv sampleWiring samplePage).alertHidden = false ∧
    (generateClick sampleEnv sampleWiring samplePage).elems = samplePage.elems ∧
    (generateClick sampleEnv sampleWiring samplePage).activeElement = none ∧
    (generateClick sampleEnv sampleWiring samplePage).focusCalls = [] ∧
    (generateClick sampleEnv sampleWiring samplePage).timers = [] :=
  ⟨by decide, generateClick_without_reason sampleEnv sampleWiring samplePage (by decide)⟩

/-! ## The two loops of `followParams` -/

theorem has_iff_get (params : Params) (name : JSString) :
    params.has name = true ↔ ∃ v, params.get name = some v := by
  induction params with
  | nil => simp [Params.has, Params.get]
  | cons kv rest ih =>
    by_cases h : kv.1 = name
    · simp [Params.has, Params.get, List.find?, h]
    · simp only [Params.has, Params.get, List.any_cons, List.find?, h, decide_False,
        Bool.false_or] at ih ⊢
      exact ih

theorem querySelector_hash (p : Page) (id : JSString) (el : Element) (h : p.elems id = some el)
    (pre : JSString) (hpre : pre = 35 :: id) : querySelector p pre = some id := by
  subst hpre
  simp [querySelector, h]

theorem str_field_selector (key : JSString) :
    str "#field-" ++ key = 35 :: (str "field-" ++ key) := by
  have : str "#field-" = 35 :: str "field-" := by decide
  rw [this]; rfl

theorem str_checkbox_selector (code : JSString) :
    str "#checkbox-" ++ code = 35 :: (str "checkbox-" ++ code) := by
  have : str "#checkbox-" = 35 :: str "checkbox-" := by decide
  rw [this]; rfl

theorem fillFields_step (d : FieldDef) (rest : List FieldDef) (p : Page) (el : Element)
    (hel : p.elems (fieldId d) = some el) :
    fillFields (d :: rest) p =
      fillFields rest (if p.params.has (orElse d.alias_ d.key) = true then
        p.setElem (fieldId d) { el with value := paramValue p.params d el.value } else p) := by
  have hq : querySelector p (str "#field-" ++ d.key) = some (fieldId d) :=
    querySelector_hash p _ el hel _ (str_field_selector d.key)
  by_cases hhas : p.params.has (orElse d.alias_ d.key) = true
  · obtain ⟨v, hv⟩ := (has_iff_get _ _).1 hhas
    simp only [fillFields, hhas, if_true, hq, hel, paramValue, hv, Option.getD_some]
  · simp only [fillFields, hhas, if_false]
    simp

theorem reasonParam_eq (a : Option JSString) (key : JSString) :
    orElse (some (orElse a (str "raisons"))) key = orElse a (str "raisons") := by
  have hr : str "raisons" ≠ [] := by decide
  cases a with
  | none => simp [orElse, hr]
  | some s =>
    by_cases hs : s = []
    · simp [orElse, hs, hr]
    · simp [orElse, hs]

theorem clickCheckbox_spec (p : Page) (id : JSString) (el : Element) (h : p.elems id = some el) :
    (p.clickCheckbox id).elems =
        (fun k => if k = id then some { el with checked := !el.checked } else p.elems k) ∧
      (p.clickCheckbox id).params = p.params ∧ (p.clickCheckbox id).wiring = p.wiring := by
  unfold Page.clickCheckbox
  simp only [h]
  cases hw : p.wiring with
  | none => simp [Page.setElem, hw]
  | some w =>
    simp only [Page.setElem, hw]
    split_ifs <;> simp [reasonChange, hw]

theorem tickReasons_step (r : FieldDef) (item : ReasonItem) (rest : List ReasonItem) (p : Page)
    (el : Element) (hel : p.elems (checkboxId item) = some el) :
    tickReasons r (item :: rest) p =
      tickReasons r rest (if (listed p.params r item && !el.checked) = true then
        p.clickCheckbox (checkboxId item) else p) := by
  have hq : querySelector p (str "#checkbox-" ++ item.code) = some (checkboxId item) :=
    querySelector_hash p _ el hel _ (str_checkbox_selector item.code)
  cases hg : p.params.get (orElse r.alias_ (str "raisons")) with
  | none => simp [tickReasons, reasonParam_eq, listed, hg]
  | some v =>
    by_cases hin : orElse item.alias_ item.code ∈ split 44 v <;>
      cases hc : el.checked <;>
      simp [tickReasons, reasonParam_eq, hq, hel, listed, hg, hin, hc]

theorem tickReasons_spec (r : FieldDef) (items : List ReasonItem) (p : Page)
    (hex : ∀ item ∈ items, (p.elems (checkboxId item)).isSome = true) :
    ∃ q, tickReasons r items p = (q, .ok ()) ∧
      (∀ k, (q.elems k).map (fun el => el.checked) = (p.elems k).map (fun el => el.checked ||
        items.any (fun item => decide (checkboxId item = k) && listed p.params r item))) ∧
      (∀ k, (q.elems k).map (fun el => el.value) = (p.elems k).map (fun el => el.value)) ∧
      q.params = p.params ∧ q.wiring = p.wiring := by
  induction items generalizing p with
  | nil => exact ⟨p, rfl, by simp, by simp, rfl, rfl⟩
  | cons item rest ih =>
    obtain ⟨el, hel⟩ := Option.isSome_iff_exists.1 (hex item (by simp))
    obtain ⟨p1, hp1⟩ : ∃ p1, p1 = (if (listed p.params r item && !el.checked) = true then
        p.clickCheckbox (checkboxId item) else p) := ⟨_, rfl⟩
    have hstep := tickReasons_step r item rest p el hel
    rw [← hp1] at hstep
    obtain ⟨hce, hcp, hcw⟩ := clickCheckbox_spec p (checkboxId item) el hel
    have helems : p1.elems = fun k =>
        if k = checkboxId item then some { el with checked := el.checked || listed p.params r item }
        else p.elems k := by
      rw [hp1]
      cases hl : listed p.params r item <;> cases hc : el.checked
      · simp only [Bool.false_and, Bool.false_eq_true, if_false, Bool.or_false]
        funext k
        by_cases hk : k = checkboxId item
        · subst hk; simp [hel, ← hc]
        · simp [hk]
      · simp only [Bool.false_and, Bool.false_eq_true, if_false, Bool.or_false]
        funext k
        by_cases hk : k = checkboxId item
        · subst hk; simp [hel, ← hc]
        · simp [hk]
      · simp only [Bool.not_false, Bool.and_self, if_true, hce, hc, Bool.or_true]
      · simp only [Bool.not_true, Bool.and_false, Bool.false_eq_true, if_false, Bool.or_true]
        funext k
        by_cases hk : k = checkboxId item
        · subst hk; simp [hel, ← hc]
        · simp [hk]
    have hparams : p1.params = p.params := by rw [hp1]; split_ifs <;> simp [hcp]
    have hwiring : p1.wiring = p.wiring := by rw [hp1]; split_ifs <;> simp [hcw]
    have hex1 : ∀ it ∈ rest, (p1.elems (checkboxId it)).isSome = true := by
      intro it hit
      rw [helems]
      by_cases hk : checkboxId it = checkboxId item
      · simp [hk]
      · simp only [hk, if_false]; exact hex it (by simp [hit])
    obtain ⟨q, hq, hchk, hval, hpar, hwir⟩ := ih p1 hex1
    refine ⟨q, by rw [hstep, hq], ?_, ?_, hpar.trans hparams, hwir.trans hwiring⟩
    · intro k
      rw [hchk k, helems, hparams]
      by_cases hk : k = checkboxId item
      · subst hk
        simp [hel, Bool.or_assoc]
      · have hk2 : ¬ checkboxId item = k := fun h => hk h.symm
        simp [hk, hk2]
    · intro k
      rw [hval k, helems]
      by_cases hk : k = checkboxId item
      · subst hk; simp [hel]
      · simp [hk]

/-! ## `followParams` as a whole -/

theorem isSome_of_map_eq {α : Type} (a b : Option Element) (f g : Element → α)
    (h : a.map f = b.map g) : a.isSome = b.isSome := by
  cases a <;> cases b <;> simp at h ⊢

theorem fillFields_frame (l : List FieldDef) (p : Page)
    (hex : ∀ d ∈ l, (p.elems (fieldId d)).isSome = true) :
    ∃ q, fillFields l p = (q, .ok ()) ∧
      (∀ k, (q.elems k).map (fun el => el.checked) = (p.elems k).map (fun el => el.checked)) ∧
      q.params = p.params ∧ q.wiring = p.wiring := by
  induction l generalizing p with
  | nil => exact ⟨p, rfl, by simp, rfl, rfl⟩
  | cons d rest ih =>
    obtain ⟨el, hel⟩ := Option.isSome_iff_exists.1 (hex d (by simp))
    obtain ⟨p1, hp1⟩ : ∃ p1, p1 = (if p.params.has (orElse d.alias_ d.key) = true then
        p.setElem (fieldId d) { el with value := paramValue p.params d el.value } else p) :=
      ⟨_, rfl⟩
    have hstep := fillFields_step d rest p el hel
    rw [← hp1] at hstep
    have hchk1 : ∀ k, (p1.elems k).map (fun el => el.checked) =
        (p.elems k).map (fun el => el.checked) := by
      intro k
      rw [hp1]
      split_ifs
      · by_cases hk : k = fieldId d
        · subst hk; simp [Page.setElem, hel]
        · simp [Page.setElem, hk]
      · rfl
    have hparams : p1.params = p.params := by rw [hp1]; split_ifs <;> rfl
    have hwiring : p1.wiring = p.wiring := by rw [hp1]; split_ifs <;> rfl
    have hex1 : ∀ d2 ∈ rest, (p1.elems (fieldId d2)).isSome = true := by
      intro d2 hd2
      rw [isSome_of_map_eq _ _ _ _ (hchk1 (fieldId d2))]
      exact hex d2 (by simp [hd2])
    obtain ⟨q, hq, hchk, hpar, hwir⟩ := ih p1 hex1
    exact ⟨q, by rw [hstep, hq], fun k => (hchk k).trans (hchk1 k), hpar.trans hparams,
      hwir.trans hwiring⟩

theorem followParams_run (env : Env) (formData : List (List FieldDef)) (p : Page)
    (reasonsObj : FieldDef) (items : List ReasonItem)
    (hreason : formData.flatten.find? (fun field => decide (field.key = str "reason")) =
      some reasonsObj)
    (hitems : reasonsObj.items = some items)
    (hfields : ∀ d ∈ visibleFields formData, (p.elems (fieldId d)).isSome = true)
    (hboxes : ∀ item ∈ items, (p.elems (checkboxId item)).isSome = true)
    (hbtn : p.params.has (str "auto") = true → (p.elems (str "generate-btn")).isSome = true) :
    ∃ q, followParams env formData p = (q, .ok ()) ∧
      (∀ k, (q.elems k).map (fun el => el.value) =
        ((fillFields (visibleFields formData) p).1.elems k).map (fun el => el.value)) ∧
      (∀ k, (q.elems k).map (fun el => el.checked) =
        (p.elems k).map (tickedState p.params reasonsObj items k)) := by
  obtain ⟨p1, h1, hchk1, hpar1, hwir1⟩ := fillFields_frame (visibleFields formData) p hfields
  have hboxes1 : ∀ item ∈ items, (p1.elems (checkboxId item)).isSome = true := by
    intro item hitem
    rw [isSome_of_map_eq _ _ _ _ (hchk1 (checkboxId item))]
    exact hboxes item hitem
  obtain ⟨p2, h2, hchk2, hval2, hpar2, hwir2⟩ := tickReasons_spec reasonsObj items p1 hboxes1
  have hchk : ∀ k, (p2.elems k).map (fun el => el.checked) =
      (p.elems k).map (tickedState p.params reasonsObj items k) := by
    intro k
    rw [hchk2 k, hpar1]
    have := hchk1 k
    cases hp1 : p1.elems k <;> cases hp : p.elems k <;> rw [hp1, hp] at this <;>
      simp at this <;> simp [tickedState, this]
  have hval : ∀ k, (p2.elems k).map (fun el => el.value) =
      ((fillFields (visibleFields formData) p).1.elems k).map (fun el => el.value) := by
    intro k; rw [hval2 k, h1]
  cases hauto : p.params.has (str "auto") with
  | false =>
    refine ⟨p2, ?_, hval, hchk⟩
    simp only [followParams, h1, hreason, hitems, h2, hpar2, hpar1, hauto]
    simp
  | true =>
    obtain ⟨btn, hb⟩ := Option.isSome_iff_exists.1 (hbtn hauto)
    have hb2 : (p2.elems (str "generate-btn")).isSome = true := by
      rw [isSome_of_map_eq _ _ _ _ (hval2 _), isSome_of_map_eq _ _ _ _ (hchk1 _), hb]; rfl
    obtain ⟨btn2, hbtn2⟩ := Option.isSome_iff_exists.1 hb2
    have hq : querySelector p2 (str "#generate-btn") = some (str "generate-btn") :=
      querySelector_hash p2 _ btn2 hbtn2 _ (by decide)
    have hsame := clickGenerate_same env p2
    refine ⟨p2.clickGenerate env, ?_, ?_, ?_⟩
    · simp only [followParams, h1, hreason, hitems, h2, hpar2, hpar1, hauto, hq]
      simp
    · intro k; rw [hsame.value k, hval k]
    · intro k; rw [hsame.checked k, hchk k]

/-! ## Fields filled by `followParams` -/

theorem checkboxId_injective (a b : ReasonItem) (h : checkboxId a = checkboxId b) :
    a.code = b.code :=
  List.append_cancel_left h

theorem any_listed_of_nodup (params : Params) (r : FieldDef) (items : List ReasonItem)
    (hnd : (items.map (fun item => item.code)).Nodup) (item : ReasonItem) (hmem : item ∈ items) :
    items.any (fun it => decide (checkboxId it = checkboxId item) && listed params r it) =
      listed params r item := by
  cases hl : listed params r item with
  | true =>
    rw [List.any_eq_true]
    exact ⟨item, hmem, by simp [hl]⟩
  | false =>
    rw [List.any_eq_false]
    intro it hit
    by_cases hk : checkboxId it = checkboxId item
    · have : it = item := List.inj_on_of_nodup_map hnd hit hmem (checkboxId_injective _ _ hk)
      simp [this, hl]
    · simp [hk]

/-- Claim C7, amended: the parameter `followParams` reads for the reason
group is named by the alias of the reason definition when it is present and
not empty and by "raisons" otherwise, whatever the key; for items with
pairwise distinct codes, on a page holding the elements it looks up,
`followParams` returns and each item is checked afterwards exactly when it
was checked before or its `alias || code` occurs in the parameter split on
`,`; when the parameter is absent no checked state changes. -/
theorem followParams_ticks_reasons (env : Env) (formData : List (List FieldDef)) (p : Page)
    (reasonsObj : FieldDef) (items : List ReasonItem)
    (hcodes : (items.map (fun item => item.code)).Nodup)
    (hreason : formData.flatten.find? (fun field => decide (field.key = str "reason")) =
      some reasonsObj)
    (hitems : reasonsObj.items = some items)
    (hfields : ∀ d ∈ visibleFields formData, (p.elems (str "field-" ++ d.key)).isSome = true)
    (hboxes : ∀ item ∈ items, (p.elems (str "checkbox-" ++ item.code)).isSome = true)
    (hbtn : p.params.has (str "auto") = true → (p.elems (str "generate-btn")).isSome = true) :
    (∀ key, orElse (some (orElse reasonsObj.alias_ (str "raisons"))) key =
      match reasonsObj.alias_ with
      | some a => if a = [] then str "raisons" else a
      | none => str "raisons") ∧
    ∃ q, followParams env formData p = (q, .ok ()) ∧
      (∀ item ∈ items, ∀ el, p.elems (str "checkbox-" ++ item.code) = some el →
        (q.elems (str "checkbox-" ++ item.code)).map (fun e => e.checked) =
          some (el.checked ||
            match p.params.get (orElse reasonsObj.alias_ (str "raisons")) with
            | some v => (split 44 v).contains (orElse item.alias_ item.code)
            | none => false)) ∧
      (p.params.get (orElse reasonsObj.alias_ (str "raisons")) = none →
        ∀ k, (q.elems k).map (fun e => e.checked) = (p.elems k).map (fun e => e.checked)) := by
  refine ⟨fun key => ?_, ?_⟩
  · rw [reasonParam_eq]
    cases reasonsObj.alias_ <;> rfl
  obtain ⟨q, hq, _, hchk⟩ :=
    followParams_run env formData p reasonsObj items hreason hitems hfields hboxes hbtn
  refine ⟨q, hq, ?_, ?_⟩
  · intro item hmem el hel
    have := hchk (checkboxId item)
    unfold checkboxId at this
    rw [this, hel]
    simp only [Option.map_some', tickedState]
    have h2 := any_listed_of_nodup p.params reasonsObj items hcodes item hmem
    show some (el.checked || items.any (fun it =>
      decide (checkboxId it = checkboxId item) && listed p.params reasonsObj it)) = _
    rw [h2]
    rfl
  · intro hnone k
    rw [hchk k]
    have : ∀ el : Element, tickedState p.params reasonsObj items k el = el.checked := by
      intro el
      have hl : ∀ it : ReasonItem, listed p.params reasonsObj it = false := by
        intro it; simp [listed, hnone]
      simp [tickedState, hl]
    have hfun : tickedState p.params reasonsObj items k = fun el => el.checked := funext this
    rw [hfun]

/-- Witness of C7 on the sample form loaded with
`#ville=Lyon&raisons=courses,sport&honeypot=x`. -/
theorem followParams_ticks_reasons_sample :
    ∃ q, followParams sampleEnv sampleFormData sampleLoaded = (q, .ok ()) ∧
      (q.elems (str "checkbox-achats")).map (fun e => e.checked) = some true ∧
      (q.elems (str "checkbox-travail")).map (fun e => e.checked) = some false := by
  obtain ⟨_, q, hq, hitem, _⟩ := followParams_ticks_reasons sampleEnv sampleFormData sampleLoaded
    sampleReasons [⟨str "travail", none⟩, ⟨str "achats", some (str "courses")⟩]
    (by decide) (by decide) rfl (by decide) (by decide) (by decide)
  refine ⟨q, hq, ?_, ?_⟩
  · exact hitem ⟨str "achats", some (str "courses")⟩ (by decide) ⟨str "achats", false, none⟩
      (by decide)
  · exact hitem ⟨str "travail", none⟩ (by decide) ⟨str "travail", false, none⟩ (by decide)

/-- Counterexample to C7 as stated: the item `travail` has the empty alias,
its `alias ?? code` is the empty string and does not occur in the parameter
`raisons=travail`, the item is not checked, and `followParams` checks it. -/
theorem followParams_nullish_reason_counterexample :
    emptyAliasItemLoaded.params.get (str "raisons") = some (str "travail") ∧
    (split 44 (str "travail")).contains (nullish (some []) (str "travail")) = false ∧
    (emptyAliasItemLoaded.elems (str "checkbox-travail")).map (fun e => e.checked) =
      some false ∧
    (followParams sampleEnv emptyAliasItemData emptyAliasItemLoaded).2 = .ok () ∧
    ((followParams sampleEnv emptyAliasItemData emptyAliasItemLoaded).1.elems
      (str "checkbox-travail")).map (fun e => e.checked) = some true ∧
    ((followParams sampleEnv emptyAliasItemData emptyAliasItemLoaded).1.elems
      (str "checkbox-travail")).map (fun e => e.checked) ≠
        some (false ||
          (split 44 (str "travail")).contains (nullish (some []) (str "travail"))) := by
  decide

/-! ## Listeners of `listenToInputChanges` -/

end FormUtil
